import Mathlib

/-!
# Fixed-capacity object pool (`src/src/pool.hpp`)

A shallow embedding of `Pool<T, N>`: the free-list allocator that hands out the
`N` slots of a statically sized buffer, and the example types of
`src/tests/unit.cpp`.

Modelling conventions.

* `std::size_t` values are natural numbers below `2 ^ 64`; the sentinel
  `INVALID_INDEX` is `static_cast<std::size_t>(-1) = 2 ^ 64 - 1`.
* The arrays `storage[N]` and `freeIndices[N]` are lists (of length `N` in every
  state the constructor produces).  An out-of-bounds read, which is undefined in
  C++, reads `0`; an out-of-bounds write changes nothing.  Neither happens in a
  state reachable from the constructor.
* A `T*` is its address, a natural number; `nullptr` is address `0`.  The
  address of `storage[0]` and `sizeof(Storage)` are collected in a `Layout`.
  The difference of two pointers is the exact division of the difference of
  their addresses by the element size, as compiled code computes it.
* A storage slot holds `some v` while a `T` with value `v` lives in it and
  `none` while it is raw memory.
* Constructor and destructor invocations of `T` are recorded in `trace`, most
  recent first.
* The constructor of `T` is a function `ctor : A → Option T` of the forwarded
  argument pack; `none` stands for a constructor that throws.
-/

set_option autoImplicit false

namespace FixedPool

/-! ### Machine integers and addresses -/

/-- Value of `static_cast<std::size_t>(-1)`, the marker of the end of the free list. -/
def INVALID_INDEX : Nat := 2 ^ 64 - 1

/-- Address of the null pointer. -/
def nullptr : Nat := 0

/-- Conversion of a signed value to `std::size_t` (reduction modulo `2 ^ 64`). -/
def toSizeT (z : Int) : Nat := (z % 2 ^ 64).toNat

/-- Conversion of a mathematical integer to `std::ptrdiff_t` (two's complement, 64 bits). -/
def toPtrdiffT (z : Int) : Int := (z + 2 ^ 63) % 2 ^ 64 - 2 ^ 63

/-- Subtraction of two `std::size_t` values, which wraps modulo `2 ^ 64`. -/
def sizeSub (a b : Nat) : Nat := (a + 2 ^ 64 - b % 2 ^ 64) % 2 ^ 64

/-- One step of the Newton iteration for the inverse of `m` modulo `2 ^ 64`. -/
def inverseStep (m x : Int) : Int := (x * (2 - m * x)) % 2 ^ 64

/-- The inverse of an odd number modulo `2 ^ 64`: the multiplier by which compiled code
divides a multiple of that number. -/
def oddInverse (m : Int) : Int :=
  inverseStep m (inverseStep m (inverseStep m (inverseStep m (inverseStep m m))))

/-- Exact division of a byte difference `d` by an element size, the way the compiled
subtraction of two pointers carries it out: an arithmetic right shift for every factor two of
the size, then a multiplication by the inverse of the odd factor that is left.  For a
multiple of the size this is the quotient, modulo `2 ^ 64`. -/
def exactDiv : Nat → Int → Nat → Int
  | 0, d, size => d * oddInverse size
  | fuel + 1, d, size =>
    if size % 2 = 0 then exactDiv fuel (d / 2) (size / 2) else d * oddInverse size

/-- Placement of the pool in memory: the address of `storage[0]` and `sizeof(Storage)`. -/
structure Layout where
  /-- Address of `storage[0]`. -/
  base : Nat
  /-- Size in bytes of one `Storage` element. -/
  stride : Nat
deriving DecidableEq

/-- A layout a C++ implementation can produce for `Storage storage[N]`: the block does not
start at the null address, an element has positive size, and the whole block lies in the
lower half of the address space, so that differences of addresses fit `std::ptrdiff_t`. -/
def Layout.WF (L : Layout) (N : Nat) : Prop :=
  0 < L.base ∧ 0 < L.stride ∧ L.base + N * L.stride < 2 ^ 63

instance (L : Layout) (N : Nat) : Decidable (L.WF N) := by
  unfold Layout.WF; infer_instance

/-- Address of `storage[i]`. -/
def slotAddr (L : Layout) (i : Nat) : Nat := L.base + i * L.stride

/-! ### The pool -/

/-- An invocation of a special member function of `T`, with the address it ran on. -/
inductive Event where
  | constructed (pointer : Nat)
  | destructed (pointer : Nat)
deriving DecidableEq

/-- The data members of `Pool<T, N>`, and the record of the invocations of `T`. -/
structure Pool (T : Type) (N : Nat) where
  /-- Member `Storage storage[N]`. -/
  storage : List (Option T)
  /-- Member `std::size_t freeIndices[N]`. -/
  freeIndices : List Nat
  /-- Member `std::size_t nextFree`. -/
  nextFree : Nat
  /-- Constructor and destructor invocations of `T` so far, most recent first. -/
  trace : List Event
deriving DecidableEq

/-- Outcome of a call of `makeObject`: the returned pointer, or an exception thrown by the
constructor of `T`. -/
inductive MakeResult where
  | returned (pointer : Nat)
  | threw
deriving DecidableEq

section Operations

variable {T A : Type} {N : Nat}

/-- The loop `for (i = 0; i < N - 1; ++i) freeIndices[i] = i + 1;` of the constructor. -/
def initLoop (N : Nat) (raw : List Nat) : List Nat :=
  (List.range (sizeSub N 1)).foldl (fun fi i => fi.set i (i + 1)) raw

/-- Constructor `Pool::Pool()`: `nextFree(0)`, the loop, then
`freeIndices[N - 1] = INVALID_INDEX`.  The arrays start as raw memory. -/
def Pool.Pool (T : Type) (N : Nat) : Pool T N :=
  { storage := List.replicate N none
    freeIndices := (initLoop N (List.replicate N 0)).set (sizeSub N 1) INVALID_INDEX
    nextFree := 0
    trace := [] }

/-- Member function `Pool::makeObject(args...)`. -/
def makeObject (L : Layout) (ctor : A → Option T) (s : Pool T N) (args : A) :
    MakeResult × Pool T N :=
  if s.nextFree = INVALID_INDEX then
    (MakeResult.returned nullptr, s)
  else
    let currentIndex := s.nextFree
    let s1 : Pool T N := { s with nextFree := s.freeIndices.getD currentIndex 0 }
    let pointer := slotAddr L currentIndex
    match ctor args with
    | none => (MakeResult.threw, s1)
    | some v =>
      (MakeResult.returned pointer,
        { s1 with
          storage := s1.storage.set currentIndex (some v)
          trace := Event.constructed pointer :: s1.trace })

/-- Member function `Pool::getIndex(pointer)`: the pointer difference `stPointer - storage`,
converted from `std::ptrdiff_t` to `std::size_t`.  The difference of two `Storage*` is the
difference of the two addresses divided exactly by `sizeof(Storage)`; for a pointer to an
element of `storage` this is the index of the element. -/
def getIndex (L : Layout) (pointer : Nat) : Nat :=
  toSizeT (exactDiv 64 (toPtrdiffT ((pointer : Int) - (L.base : Int))) L.stride)

/-- Member function `Pool::destroyObject(pointer)`. -/
def destroyObject (L : Layout) (s : Pool T N) (pointer : Nat) : Pool T N :=
  if pointer = nullptr then
    s
  else
    let indx := getIndex L pointer
    if indx ≥ N then
      s
    else
      { storage := s.storage.set indx none
        freeIndices := s.freeIndices.set indx s.nextFree
        nextFree := indx
        trace := Event.destructed pointer :: s.trace }

/-- Destructor `Pool::~Pool()`, whose body is empty: the members are arrays of raw storage
and of integers, so the state it leaves behind, with the record of the invocations of `T`,
is the state it found. -/
def Pool.destructor (s : FixedPool.Pool T N) : FixedPool.Pool T N := s

/-- The object a pointer into the pool refers to: the contents of the slot of its index. -/
def deref (L : Layout) (s : Pool T N) (pointer : Nat) : Option T :=
  s.storage.getD (getIndex L pointer) none

/-- Consecutive `makeObject` calls, one per argument pack; the outcomes in call order and the
final state. -/
def makeMany (L : Layout) (ctor : A → Option T) :
    Pool T N → List A → List MakeResult × Pool T N
  | s, [] => ([], s)
  | s, a :: as =>
    let r := makeObject L ctor s a
    let rest := makeMany L ctor r.2 as
    (r.1 :: rest.1, rest.2)

/-- Consecutive `destroyObject` calls, one per pointer. -/
def destroyMany (L : Layout) (s : Pool T N) (ps : List Nat) : Pool T N :=
  ps.foldl (destroyObject L) s

/-- The sequence of slots met from index `h` by following `freeIndices` until
`INVALID_INDEX`, cut after `fuel` slots. -/
def walk (fi : List Nat) : Nat → Nat → List Nat
  | 0, _ => []
  | fuel + 1, h => if h = INVALID_INDEX then [] else h :: walk fi fuel (fi.getD h 0)

/-- The free list of a pool: the slots reachable from `nextFree`, at most `N` of them. -/
def freeList (s : Pool T N) : List Nat := walk s.freeIndices N s.nextFree

/-! ### Runs of interface calls under the caller contract -/

/-- A call on the interface of the pool. -/
inductive Op (A : Type) where
  | make (args : A)
  | destroy (pointer : Nat)
deriving DecidableEq

/-- A pool during a run of calls, with the bookkeeping of the caller contract: the pointers
returned by `makeObject` and not yet passed to `destroyObject`, and the slots that were taken
from the free list by a `makeObject` whose constructor threw. -/
structure Run (T : Type) (N : Nat) where
  /-- The pool itself. -/
  pool : Pool T N
  /-- Outstanding pointers, most recent first. -/
  live : List Nat
  /-- Slots popped by a call that ended in an exception. -/
  lost : List Nat
deriving DecidableEq

/-- The run that has just constructed its pool. -/
def Run.fresh (T : Type) (N : Nat) : Run T N :=
  { pool := Pool.Pool T N, live := [], lost := [] }

/-- One call of a run.  A `destroyObject` call respects the caller contract when its argument
is null, has an index outside `[0, N)`, or is an outstanding pointer; any other call ends the
run with `none`. -/
def stepOp (L : Layout) (ctor : A → Option T) (r : Run T N) : Op A → Option (Run T N)
  | Op.make args =>
    match makeObject L ctor r.pool args with
    | (MakeResult.returned p, s) =>
      some { pool := s, live := if p = nullptr then r.live else p :: r.live, lost := r.lost }
    | (MakeResult.threw, s) =>
      some { pool := s, live := r.live, lost := r.pool.nextFree :: r.lost }
  | Op.destroy p =>
    if p = nullptr ∨ N ≤ getIndex L p ∨ p ∈ r.live then
      some { pool := destroyObject L r.pool p, live := r.live.erase p, lost := r.lost }
    else
      none

/-- A sequence of calls; `none` when one of them breaks the caller contract. -/
def runOps (L : Layout) (ctor : A → Option T) : Run T N → List (Op A) → Option (Run T N)
  | r, [] => some r
  | r, op :: ops => (stepOp L ctor r op).bind (fun r1 => runOps L ctor r1 ops)

/-- A sequence of calls with no check of the caller contract: the outcomes of its
`makeObject` calls in call order, and the final state. -/
def execOps (L : Layout) (ctor : A → Option T) :
    Pool T N → List (Op A) → List MakeResult × Pool T N
  | s, [] => ([], s)
  | s, Op.make args :: ops =>
    let r := makeObject L ctor s args
    let rest := execOps L ctor r.2 ops
    (r.1 :: rest.1, rest.2)
  | s, Op.destroy p :: ops => execOps L ctor (destroyObject L s p) ops

/-- The pointers among the outcomes of a sequence of `makeObject` calls. -/
def pointers : List MakeResult → List Nat
  | [] => []
  | MakeResult.returned p :: rs => p :: pointers rs
  | MakeResult.threw :: rs => pointers rs

/-- Following `fi` from `h` visits exactly the slots of the list, in order, and then reaches
`INVALID_INDEX`. -/
def IsChain (fi : List Nat) : Nat → List Nat → Prop
  | h, [] => h = INVALID_INDEX
  | h, a :: l => h = a ∧ a ≠ INVALID_INDEX ∧ IsChain fi (fi.getD a 0) l

/-- The representation invariant of a run, relative to the list `free` of its free slots. -/
structure Inv (L : Layout) (r : Run T N) (free : List Nat) : Prop where
  len_fi : r.pool.freeIndices.length = N
  len_st : r.pool.storage.length = N
  chain : IsChain r.pool.freeIndices r.pool.nextFree free
  free_lt : ∀ i ∈ free, i < N
  free_nodup : free.Nodup
  free_raw : ∀ i ∈ free, r.pool.storage.getD i none = none
  live_nodup : r.live.Nodup
  live_slot : ∀ p ∈ r.live, ∃ i, i < N ∧ p = slotAddr L i ∧ i ∉ free ∧ i ∉ r.lost ∧
    (r.pool.storage.getD i none).isSome = true
  lost_nodup : r.lost.Nodup
  lost_slot : ∀ i ∈ r.lost, i < N ∧ i ∉ free ∧ r.pool.storage.getD i none = none
  cover : ∀ i, i < N → i ∈ free ∨ i ∈ r.lost ∨ slotAddr L i ∈ r.live
  count : free.length + r.lost.length + r.live.length = N

end Operations

/-! ### The example types of `src/tests/unit.cpp` -/

/-- Type `struct Point { int x, y, z; }`; a member is `none` while its value is indeterminate. -/
structure Point where
  x : Option Int
  y : Option Int
  z : Option Int
deriving DecidableEq

/-- Class `Base1`, with its data member. -/
structure Base1 where
  number1 : Int
deriving DecidableEq

/-- Class `Base2`, with its data member. -/
structure Base2 where
  number2 : Int
deriving DecidableEq

/-- Class `Derived : public Base2, public Base1`, with its own data members. -/
structure Derived extends Base2, Base1 where
  p : Point
  number3 : Int
deriving DecidableEq

/-- Class `NoDefaultConstructor`. -/
structure NoDefaultConstructor where
  number : Int
deriving DecidableEq

/-- Constructor `Base1() : number1(1)`. -/
def Base1.ctor (_ : Unit) : Option Base1 := some { number1 := 1 }

/-- Constructor `Base2() : number2(2)`. -/
def Base2.ctor (_ : Unit) : Option Base2 := some { number2 := 2 }

/-- Constructor `Derived() : number3(3)`: the two bases are constructed in declaration order,
the member `p` is left uninitialised. -/
def Derived.ctor (_ : Unit) : Option Derived :=
  (Base2.ctor ()).bind fun b2 =>
  (Base1.ctor ()).bind fun b1 =>
  some { toBase2 := b2, toBase1 := b1, p := { x := none, y := none, z := none }, number3 := 3 }

/-- Constructor `NoDefaultConstructor(int num) : number(num)`. -/
def NoDefaultConstructor.ctor (num : Int) : Option NoDefaultConstructor := some { number := num }

/-- Member function `Base1::getNumber`. -/
def Base1.getNumber (b : Base1) : Int := b.number1

/-- Member function `Base2::getNumber`. -/
def Base2.getNumber (b : Base2) : Int := b.number2

/-- Member function `Derived::getNumber1`. -/
def Derived.getNumber1 (d : Derived) : Int := d.number1

/-- Member function `Derived::getNumber2`. -/
def Derived.getNumber2 (d : Derived) : Int := d.number2

/-- Member function `Derived::getNumber3`. -/
def Derived.getNumber3 (d : Derived) : Int := d.number3

/-- Member function `Derived::getPoint`. -/
def Derived.getPoint (d : Derived) : Point := d.p

/-- Member function `NoDefaultConstructor::getNumber`. -/
def NoDefaultConstructor.getNumber (o : NoDefaultConstructor) : Int := o.number

/-! ### Arrays and machine arithmetic -/

theorem getD_set_eq {α : Type} (l : List α) (i : Nat) (v d : α) (h : i < l.length) :
    (l.set i v).getD i d = v := by
  simp [List.getD_eq_getElem?_getD, List.getElem?_set, h]

theorem getD_set_ne {α : Type} (l : List α) (i j : Nat) (v d : α) (h : i ≠ j) :
    (l.set i v).getD j d = l.getD j d := by
  simp [List.getD_eq_getElem?_getD, List.getElem?_set, h]

theorem sizeSub_one {N : Nat} (h1 : 1 ≤ N) (h2 : N < 2 ^ 64) : sizeSub N 1 = N - 1 := by
  unfold sizeSub; omega

theorem Layout.WF.lt_size {L : Layout} {N : Nat} (h : L.WF N) : N < 2 ^ 63 := by
  obtain ⟨_, h2, h3⟩ := h
  have : N * 1 ≤ N * L.stride := Nat.mul_le_mul_left N h2
  omega

theorem slotAddr_ne_null {L : Layout} {N : Nat} (h : L.WF N) (i : Nat) :
    slotAddr L i ≠ nullptr := by
  unfold slotAddr nullptr
  have := h.1
  omega

theorem slotAddr_inj {L : Layout} {N : Nat} (h : L.WF N) {i j : Nat}
    (e : slotAddr L i = slotAddr L j) : i = j := by
  unfold slotAddr at e
  exact Nat.eq_of_mul_eq_mul_right h.2.1 (by omega)

theorem inverseStep_spec (m x : Int) (j k : Nat) (hk : k ≤ 2 * j) (hk64 : k ≤ 64)
    (h : m * x ≡ 1 [ZMOD 2 ^ j]) : m * inverseStep m x ≡ 1 [ZMOD 2 ^ k] := by
  have h1 : (2 : Int) ^ j ∣ m * x - 1 := Int.modEq_iff_dvd.1 h.symm
  have h2 : (2 : Int) ^ j * 2 ^ j ∣ (m * x - 1) * (m * x - 1) := mul_dvd_mul h1 h1
  have h3 : (2 : Int) ^ k ∣ 2 ^ j * 2 ^ j := by
    rw [← pow_add]
    exact pow_dvd_pow 2 (by omega)
  have h4 : (2 : Int) ^ k ∣ 1 - m * (x * (2 - m * x)) := by
    have e : 1 - m * (x * (2 - m * x)) = (m * x - 1) * (m * x - 1) := by ring
    rw [e]
    exact dvd_trans h3 h2
  have h5 : m * (x * (2 - m * x)) ≡ 1 [ZMOD 2 ^ k] := Int.modEq_iff_dvd.2 h4
  have h6 : inverseStep m x ≡ x * (2 - m * x) [ZMOD 2 ^ 64] := Int.mod_modEq _ _
  have h7 : inverseStep m x ≡ x * (2 - m * x) [ZMOD 2 ^ k] :=
    h6.of_dvd (pow_dvd_pow 2 hk64)
  exact (h7.mul_left m).trans h5

theorem odd_mul_self (m : Int) (h : m % 2 = 1) : m * m ≡ 1 [ZMOD 2 ^ 3] := by
  have h8 : m % 8 = 1 ∨ m % 8 = 3 ∨ m % 8 = 5 ∨ m % 8 = 7 := by omega
  have hm : m ≡ m % 8 [ZMOD 8] := (Int.mod_modEq m 8).symm
  have := hm.mul hm
  rcases h8 with e | e | e | e <;> rw [e] at this <;> exact this.trans (by decide)

/-- The multiplier `oddInverse m` is the inverse of an odd `m` modulo `2 ^ 64`. -/
theorem oddInverse_spec (m : Int) (h : m % 2 = 1) : m * oddInverse m ≡ 1 [ZMOD 2 ^ 64] := by
  have h3 := odd_mul_self m h
  have h6 := inverseStep_spec m _ 3 6 (by omega) (by omega) h3
  have h12 := inverseStep_spec m _ 6 12 (by omega) (by omega) h6
  have h24 := inverseStep_spec m _ 12 24 (by omega) (by omega) h12
  have h48 := inverseStep_spec m _ 24 48 (by omega) (by omega) h24
  exact inverseStep_spec m _ 48 64 (by omega) (by omega) h48

/-- Exact division of a multiple of the size yields the quotient. -/
theorem exactDiv_mul : ∀ (fuel size : Nat) (i : Int), 0 < size → size < 2 ^ fuel →
    exactDiv fuel (i * (size : Int)) size ≡ i [ZMOD 2 ^ 64]
  | 0, size, _, h0, h1 => by simp at h1; omega
  | fuel + 1, size, i, h0, h1 => by
    by_cases he : size % 2 = 0
    · obtain ⟨half, rfl⟩ : ∃ half, size = 2 * half := ⟨size / 2, by omega⟩
      have e1 : i * ((2 * half : Nat) : Int) / 2 = i * (half : Int) := by
        have : i * ((2 * half : Nat) : Int) = i * (half : Int) * 2 := by push_cast; ring
        rw [this, Int.mul_ediv_cancel _ (by decide)]
      have e2 : 2 * half / 2 = half := by omega
      simp only [exactDiv, he, if_true, e1, e2]
      exact exactDiv_mul fuel half i (by omega) (by rw [pow_succ] at h1; omega)
    · simp only [exactDiv, he, if_false]
      have hodd : (size : Int) % 2 = 1 := by omega
      have := (oddInverse_spec (size : Int) hodd).mul_left i
      rw [mul_one, ← mul_assoc] at this
      exact this

/-- When the exact division of a difference `d` yields `j`, with `j` elements fitting
`std::ptrdiff_t`, the difference lies in element `j`. -/
theorem exactDiv_range : ∀ (fuel size : Nat) (d j : Int), 0 < size → size < 2 ^ fuel →
    -2 ^ 63 ≤ d → d < 2 ^ 63 → 0 ≤ j → j * (size : Int) < 2 ^ 63 →
    exactDiv fuel d size ≡ j [ZMOD 2 ^ 64] →
    j * (size : Int) ≤ d ∧ d < j * (size : Int) + (size : Int)
  | 0, size, _, _, h0, h1, _, _, _, _, _ => by simp at h1; omega
  | fuel + 1, size, d, j, h0, h1, hd1, hd2, hj, hjs, h => by
    by_cases he : size % 2 = 0
    · obtain ⟨half, rfl⟩ : ∃ half, size = 2 * half := ⟨size / 2, by omega⟩
      have e2 : 2 * half / 2 = half := by omega
      simp only [exactDiv, he, if_true, e2] at h
      have e3 : j * ((2 * half : Nat) : Int) = 2 * (j * (half : Int)) := by push_cast; ring
      have e4 : ((2 * half : Nat) : Int) = 2 * (half : Int) := by push_cast; ring
      rw [e3] at hjs
      have ih := exactDiv_range fuel half (d / 2) j (by omega)
        (by rw [pow_succ] at h1; omega) (by omega) (by omega) hj (by omega) h
      rw [e3, e4]
      omega
    · simp only [exactDiv, he, if_false] at h
      have hodd : (size : Int) % 2 = 1 := by omega
      have h2 := h.mul_right (size : Int)
      have h3 := (oddInverse_spec (size : Int) hodd).mul_left d
      rw [mul_one, ← mul_assoc, mul_right_comm] at h3
      have h4 : d ≡ j * (size : Int) [ZMOD 2 ^ 64] := h3.symm.trans h2
      have h5 : ((2 : Int) ^ 64) ∣ j * (size : Int) - d := Int.modEq_iff_dvd.1 h4
      have h6 : 0 ≤ j * (size : Int) := mul_nonneg hj (by omega)
      obtain ⟨c, hc⟩ := h5
      have h7 : d = j * (size : Int) := by omega
      omega

theorem getIndex_slotAddr {L : Layout} {N : Nat} (h : L.WF N) {i : Nat} (hi : i < N) :
    getIndex L (slotAddr L i) = i := by
  obtain ⟨_, h2, h3⟩ := h
  have hle : i * L.stride ≤ N * L.stride := Nat.mul_le_mul_right _ (Nat.le_of_lt hi)
  have hi2 : i * 1 ≤ i * L.stride := Nat.mul_le_mul_left i h2
  have hs : 1 * L.stride ≤ N * L.stride := Nat.mul_le_mul_right _ (by omega)
  unfold getIndex slotAddr
  have e1 : ((L.base + i * L.stride : Nat) : Int) - (L.base : Int) = (i : Int) * (L.stride : Int) := by
    push_cast; ring
  have e2 : toPtrdiffT ((i : Int) * (L.stride : Int)) = (i : Int) * (L.stride : Int) := by
    have : ((i * L.stride : Nat) : Int) = (i : Int) * (L.stride : Int) := by push_cast; ring
    unfold toPtrdiffT
    rw [← this]
    omega
  have hm : exactDiv 64 ((i : Int) * (L.stride : Int)) L.stride % 2 ^ 64 = (i : Int) % 2 ^ 64 :=
    exactDiv_mul 64 L.stride i h2 (by omega)
  rw [e1, e2]
  unfold toSizeT
  rw [hm]
  omega

/-- A 64-bit pointer outside the storage block has an index of at least `N`. -/
theorem getIndex_outside_block {L : Layout} {N : Nat} (hL : L.WF N) (p : Nat)
    (hp : p < 2 ^ 64) (hout : p < L.base ∨ L.base + N * L.stride ≤ p) :
    N ≤ getIndex L p := by
  obtain ⟨_, h2, h3⟩ := hL
  by_contra hlt
  have hj : getIndex L p < N := by omega
  have hd1 : -2 ^ 63 ≤ toPtrdiffT ((p : Int) - (L.base : Int)) := by unfold toPtrdiffT; omega
  have hd2 : toPtrdiffT ((p : Int) - (L.base : Int)) < 2 ^ 63 := by unfold toPtrdiffT; omega
  have hmod : exactDiv 64 (toPtrdiffT ((p : Int) - (L.base : Int))) L.stride ≡
      (getIndex L p : Int) [ZMOD 2 ^ 64] := by
    have e : (getIndex L p : Int) =
        exactDiv 64 (toPtrdiffT ((p : Int) - (L.base : Int))) L.stride % 2 ^ 64 := by
      unfold getIndex toSizeT
      exact Int.toNat_of_nonneg (Int.emod_nonneg _ (by decide))
    rw [e]
    exact (Int.mod_modEq _ _).symm
  have hle : (getIndex L p + 1) * L.stride ≤ N * L.stride := Nat.mul_le_mul_right _ hj
  have hs : 1 * L.stride ≤ N * L.stride := Nat.mul_le_mul_right _ (by omega)
  have e1 : ((getIndex L p * L.stride : Nat) : Int) = (getIndex L p : Int) * (L.stride : Int) := by
    push_cast; ring
  have e2 : (getIndex L p + 1) * L.stride = getIndex L p * L.stride + L.stride := by ring
  obtain ⟨r1, r2⟩ := exactDiv_range 64 L.stride _ (getIndex L p : Int) h2 (by omega) hd1 hd2
    (by omega) (by rw [← e1]; omega) hmod
  rw [← e1] at r1 r2
  unfold toPtrdiffT at r1 r2
  omega

/-! ### The constructor -/

theorem initLoop_aux (n : Nat) (raw : List Nat) :
    ((List.range n).foldl (fun fi i => fi.set i (i + 1)) raw).length = raw.length ∧
    ∀ i, ((List.range n).foldl (fun fi i => fi.set i (i + 1)) raw).getD i 0 =
      if i < n ∧ i < raw.length then i + 1 else raw.getD i 0 := by
  induction n with
  | zero => simp
  | succ n ih =>
    rw [List.range_succ, List.foldl_append]
    obtain ⟨h1, h2⟩ := ih
    refine ⟨by simp [h1], fun i => ?_⟩
    simp only [List.foldl_cons, List.foldl_nil]
    by_cases hi : n = i
    · subst hi
      by_cases hl : n < raw.length
      · rw [getD_set_eq _ _ _ _ (by omega)]; simp [hl]
      · rw [List.set_eq_of_length_le (by omega), h2]; simp [hl]
    · rw [getD_set_ne _ _ _ _ _ hi, h2]
      by_cases h4 : i < raw.length
      · by_cases h3 : i < n
        · have h5 : i < n + 1 := by omega
          simp [h3, h4, h5]
        · have h5 : ¬ i < n + 1 := by omega
          simp [h3, h4, h5]
      · simp [h4]

theorem fresh_length {T : Type} {N : Nat} :
    (Pool.Pool T N).freeIndices.length = N ∧ (Pool.Pool T N).storage.length = N := by
  simp [Pool.Pool, initLoop, (initLoop_aux _ _).1]

theorem fresh_entry {T : Type} {N : Nat} (h1 : 1 ≤ N) (h2 : N < 2 ^ 64) (i : Nat) (hi : i < N) :
    (Pool.Pool T N).freeIndices.getD i 0 = if i < N - 1 then i + 1 else INVALID_INDEX := by
  have hlen := (initLoop_aux (N - 1) (List.replicate N 0)).1
  simp only [Pool.Pool, initLoop, sizeSub_one h1 h2]
  by_cases h : i < N - 1
  · rw [getD_set_ne _ _ _ _ _ (by omega), (initLoop_aux _ _).2]
    simp [h, hi]
  · have : i = N - 1 := by omega
    subst this
    rw [getD_set_eq _ _ _ _ (by rw [hlen]; simpa using hi)]
    simp

/-! ### Chains -/

theorem IsChain.of_set {fi : List Nat} {i v : Nat} :
    ∀ {h : Nat} {l : List Nat}, IsChain fi h l → i ∉ l → IsChain (fi.set i v) h l
  | _, [], hc, _ => hc
  | _, a :: l, ⟨h1, h2, h3⟩, hi => by
    have hne : i ≠ a := fun e => hi (by simp [e])
    refine ⟨h1, h2, ?_⟩
    rw [getD_set_ne _ _ _ _ _ hne]
    exact IsChain.of_set h3 (fun hm => hi (List.mem_cons_of_mem _ hm))

theorem IsChain.push {fi : List Nat} {h i : Nat} {l : List Nat} (hc : IsChain fi h l)
    (hi : i ∉ l) (hlen : i < fi.length) (hne : i ≠ INVALID_INDEX) :
    IsChain (fi.set i h) i (i :: l) := by
  refine ⟨rfl, hne, ?_⟩
  rw [getD_set_eq _ _ _ _ hlen]
  exact hc.of_set hi

theorem IsChain.unique {fi : List Nat} :
    ∀ {h : Nat} {l1 l2 : List Nat}, IsChain fi h l1 → IsChain fi h l2 → l1 = l2
  | _, [], [], _, _ => rfl
  | _, [], _ :: _, h1, ⟨h2, h3, _⟩ => absurd (h2.symm.trans h1) h3
  | _, _ :: _, [], ⟨h2, h3, _⟩, h1 => absurd (h2.symm.trans h1) h3
  | _, a :: l1, b :: l2, ⟨h1, _, h3⟩, ⟨k1, _, k3⟩ => by
    have e : a = b := h1.symm.trans k1
    subst e
    rw [IsChain.unique h3 k3]

theorem walk_of_chain {fi : List Nat} :
    ∀ {fuel h : Nat} {l : List Nat}, IsChain fi h l → l.length ≤ fuel → walk fi fuel h = l
  | 0, _, [], _, _ => rfl
  | 0, _, _ :: _, _, hl => by simp at hl
  | fuel + 1, _, [], hc, _ => by
    have : _ = INVALID_INDEX := hc
    simp [walk, this]
  | fuel + 1, _, a :: l, ⟨h1, h2, h3⟩, hl => by
    subst h1
    simp only [walk, h2, if_false]
    rw [walk_of_chain h3 (by simpa using hl)]

theorem fresh_chain_aux {fi : List Nat} {N : Nat} (hN : N < 2 ^ 63)
    (hfi : ∀ i, i < N → fi.getD i 0 = if i < N - 1 then i + 1 else INVALID_INDEX) :
    ∀ n k, k + n = N → IsChain fi (if n = 0 then INVALID_INDEX else k) (List.range' k n)
  | 0, _, _ => by simp [IsChain]
  | n + 1, k, hk => by
    have ih := fresh_chain_aux hN hfi n (k + 1) (by omega)
    simp only [List.range'_succ, IsChain]
    refine ⟨by simp, by unfold INVALID_INDEX; omega, ?_⟩
    rw [hfi k (by omega)]
    by_cases hn : n = 0
    · subst hn
      have : ¬ k < N - 1 := by omega
      simpa [this] using ih
    · have : k < N - 1 := by omega
      simpa [this, hn] using ih

theorem fresh_inv {T : Type} {N : Nat} (L : Layout) (h1 : 1 ≤ N) (hL : L.WF N) :
    Inv L (Run.fresh T N) (List.range' 0 N) := by
  have hN := hL.lt_size
  have hc := fresh_chain_aux hN
    (fun i hi => fresh_entry (T := T) h1 (by omega) i hi) N 0 (by omega)
  have hN0 : ¬ N = 0 := by omega
  simp only [hN0, if_false] at hc
  exact
    { len_fi := fresh_length.1
      len_st := fresh_length.2
      chain := hc
      free_lt := fun i hi => by
        have := List.mem_range'_1.1 hi
        omega
      free_nodup := List.nodup_range' 0 N
      free_raw := fun i _ => by
        simp only [Run.fresh, Pool.Pool, List.getD_eq_getElem?_getD, List.getElem?_replicate]
        split <;> rfl
      live_nodup := List.nodup_nil
      live_slot := fun p hp => by simp [Run.fresh] at hp
      lost_nodup := List.nodup_nil
      lost_slot := fun i hi => by simp [Run.fresh] at hi
      cover := fun i hi => Or.inl (List.mem_range'_1.2 ⟨by omega, by omega⟩)
      count := by simp [Run.fresh] }

/-! ### The two operations, case by case -/

section Steps

variable {T A : Type} {N : Nat}

theorem makeObject_null (L : Layout) (ctor : A → Option T) (s : Pool T N) (args : A)
    (h : s.nextFree = INVALID_INDEX) :
    makeObject L ctor s args = (MakeResult.returned nullptr, s) := by
  simp [makeObject, h]

theorem makeObject_some (L : Layout) (ctor : A → Option T) (s : Pool T N) (args : A) (v : T)
    (h : s.nextFree ≠ INVALID_INDEX) (hv : ctor args = some v) :
    makeObject L ctor s args =
      (MakeResult.returned (slotAddr L s.nextFree),
        { storage := s.storage.set s.nextFree (some v)
          freeIndices := s.freeIndices
          nextFree := s.freeIndices.getD s.nextFree 0
          trace := Event.constructed (slotAddr L s.nextFree) :: s.trace }) := by
  simp [makeObject, h, hv]

theorem makeObject_threw (L : Layout) (ctor : A → Option T) (s : Pool T N) (args : A)
    (h : s.nextFree ≠ INVALID_INDEX) (hv : ctor args = none) :
    makeObject L ctor s args =
      (MakeResult.threw, { s with nextFree := s.freeIndices.getD s.nextFree 0 }) := by
  simp [makeObject, h, hv]

theorem destroyObject_null (L : Layout) (s : Pool T N) : destroyObject L s nullptr = s := by
  simp [destroyObject]

theorem destroyObject_foreign (L : Layout) (s : Pool T N) (p : Nat) (h : N ≤ getIndex L p) :
    destroyObject L s p = s := by
  unfold destroyObject
  split
  · rfl
  · simp [h]

theorem destroyObject_slot (L : Layout) (s : Pool T N) (p : Nat) (h0 : p ≠ nullptr)
    (h : getIndex L p < N) :
    destroyObject L s p =
      { storage := s.storage.set (getIndex L p) none
        freeIndices := s.freeIndices.set (getIndex L p) s.nextFree
        nextFree := getIndex L p
        trace := Event.destructed p :: s.trace } := by
  have : ¬ N ≤ getIndex L p := by omega
  simp [destroyObject, h0, this]

theorem Inv.free_nil {L : Layout} {r : Run T N} {free : List Nat} (hinv : Inv L r free)
    (h : r.pool.nextFree = INVALID_INDEX) : free = [] := by
  cases free with
  | nil => rfl
  | cons a l =>
    obtain ⟨h1, h2, _⟩ := hinv.chain
    exact absurd (h1.symm.trans h) h2

theorem Inv.free_cons {L : Layout} {r : Run T N} {free : List Nat} (hinv : Inv L r free)
    (h : r.pool.nextFree ≠ INVALID_INDEX) : ∃ l, free = r.pool.nextFree :: l := by
  cases free with
  | nil => exact absurd hinv.chain h
  | cons a l =>
    obtain ⟨h1, _, _⟩ := hinv.chain
    exact ⟨l, by rw [h1]⟩

theorem Inv.make_some {L : Layout} {r : Run T N} {a : Nat} {l : List Nat} (hL : L.WF N)
    (hinv : Inv L r (a :: l)) (v : T) :
    Inv L
      ({ pool :=
          { storage := r.pool.storage.set a (some v)
            freeIndices := r.pool.freeIndices
            nextFree := r.pool.freeIndices.getD a 0
            trace := Event.constructed (slotAddr L a) :: r.pool.trace }
         live := slotAddr L a :: r.live
         lost := r.lost } : Run T N) l := by
  obtain ⟨h1, h2, h3⟩ := hinv.chain
  have hnd := List.nodup_cons.1 hinv.free_nodup
  have haN : a < N := hinv.free_lt a (List.mem_cons_self _ _)
  have hal : a ∉ r.lost := fun hm => (hinv.lost_slot a hm).2.1 (List.mem_cons_self _ _)
  have hnew : slotAddr L a ∉ r.live := by
    intro hm
    obtain ⟨i, _, e, hi, _⟩ := hinv.live_slot _ hm
    exact hi (by rw [slotAddr_inj hL e]; exact List.mem_cons_self _ _)
  refine
    { len_fi := hinv.len_fi
      len_st := by simp [hinv.len_st]
      chain := h3
      free_lt := fun i hi => hinv.free_lt i (List.mem_cons_of_mem _ hi)
      free_nodup := hnd.2
      free_raw := fun i hi => ?_
      live_nodup := List.nodup_cons.2 ⟨hnew, hinv.live_nodup⟩
      live_slot := fun p hp => ?_
      lost_nodup := hinv.lost_nodup
      lost_slot := fun i hi => ?_
      cover := fun i hi => ?_
      count := by have := hinv.count; simp only [List.length_cons] at this ⊢; omega }
  · have hne : a ≠ i := fun e => hnd.1 (e ▸ hi)
    show (r.pool.storage.set a (some v)).getD i none = none
    rw [getD_set_ne _ _ _ _ _ hne]
    exact hinv.free_raw i (List.mem_cons_of_mem _ hi)
  · rcases List.mem_cons.1 hp with e | hm
    · refine ⟨a, haN, e, hnd.1, hal, ?_⟩
      show ((r.pool.storage.set a (some v)).getD a none).isSome = true
      rw [getD_set_eq _ _ _ _ (by rw [hinv.len_st]; exact haN)]
      rfl
    · obtain ⟨i, hiN, e, hi, hil, hs⟩ := hinv.live_slot p hm
      have hne : a ≠ i := fun e2 => hi (e2 ▸ List.mem_cons_self _ _)
      refine ⟨i, hiN, e, fun hm2 => hi (List.mem_cons_of_mem _ hm2), hil, ?_⟩
      show ((r.pool.storage.set a (some v)).getD i none).isSome = true
      rw [getD_set_ne _ _ _ _ _ hne]
      exact hs
  · obtain ⟨hiN, hi, hs⟩ := hinv.lost_slot i hi
    have hne : a ≠ i := fun e2 => hi (e2 ▸ List.mem_cons_self _ _)
    refine ⟨hiN, fun hm2 => hi (List.mem_cons_of_mem _ hm2), ?_⟩
    show (r.pool.storage.set a (some v)).getD i none = none
    rw [getD_set_ne _ _ _ _ _ hne]
    exact hs
  · rcases hinv.cover i hi with hf | hl | hv
    · rcases List.mem_cons.1 hf with e | hm
      · exact Or.inr (Or.inr (by rw [e]; exact List.mem_cons_self _ _))
      · exact Or.inl hm
    · exact Or.inr (Or.inl hl)
    · exact Or.inr (Or.inr (List.mem_cons_of_mem _ hv))

theorem Inv.make_threw {L : Layout} {r : Run T N} {a : Nat} {l : List Nat}
    (hinv : Inv L r (a :: l)) :
    Inv L
      ({ pool := { r.pool with nextFree := r.pool.freeIndices.getD a 0 }
         live := r.live
         lost := a :: r.lost } : Run T N) l := by
  obtain ⟨h1, h2, h3⟩ := hinv.chain
  have hnd := List.nodup_cons.1 hinv.free_nodup
  have haN : a < N := hinv.free_lt a (List.mem_cons_self _ _)
  have hal : a ∉ r.lost := fun hm => (hinv.lost_slot a hm).2.1 (List.mem_cons_self _ _)
  refine
    { len_fi := hinv.len_fi
      len_st := hinv.len_st
      chain := h3
      free_lt := fun i hi => hinv.free_lt i (List.mem_cons_of_mem _ hi)
      free_nodup := hnd.2
      free_raw := fun i hi => hinv.free_raw i (List.mem_cons_of_mem _ hi)
      live_nodup := hinv.live_nodup
      live_slot := fun p hp => ?_
      lost_nodup := List.nodup_cons.2 ⟨hal, hinv.lost_nodup⟩
      lost_slot := fun i hi => ?_
      cover := fun i hi => ?_
      count := by have := hinv.count; simp only [List.length_cons] at this ⊢; omega }
  · obtain ⟨i, hiN, e, hi, hil, hs⟩ := hinv.live_slot p hp
    have hne : i ≠ a := fun e2 => hi (e2 ▸ List.mem_cons_self _ _)
    exact ⟨i, hiN, e, fun hm2 => hi (List.mem_cons_of_mem _ hm2),
      fun hm2 => by rcases List.mem_cons.1 hm2 with e3 | hm3 <;> [exact hne e3; exact hil hm3],
      hs⟩
  · rcases List.mem_cons.1 hi with e | hm
    · subst e
      exact ⟨haN, hnd.1, hinv.free_raw _ (List.mem_cons_self _ _)⟩
    · obtain ⟨hiN, hi2, hs⟩ := hinv.lost_slot i hm
      exact ⟨hiN, fun hm2 => hi2 (List.mem_cons_of_mem _ hm2), hs⟩
  · rcases hinv.cover i hi with hf | hl | hv
    · rcases List.mem_cons.1 hf with e | hm
      · exact Or.inr (Or.inl (by rw [e]; exact List.mem_cons_self _ _))
      · exact Or.inl hm
    · exact Or.inr (Or.inl (List.mem_cons_of_mem _ hl))
    · exact Or.inr (Or.inr hv)

theorem Inv.live_index {L : Layout} {r : Run T N} {free : List Nat} (hL : L.WF N)
    (hinv : Inv L r free) {p : Nat} (hp : p ∈ r.live) :
    p ≠ nullptr ∧ getIndex L p < N ∧ p = slotAddr L (getIndex L p) ∧ getIndex L p ∉ free ∧
      getIndex L p ∉ r.lost ∧ (r.pool.storage.getD (getIndex L p) none).isSome = true := by
  obtain ⟨i, hiN, e, hi, hil, hs⟩ := hinv.live_slot p hp
  subst e
  rw [getIndex_slotAddr hL hiN]
  exact ⟨slotAddr_ne_null hL i, hiN, rfl, hi, hil, hs⟩

theorem Inv.erase_foreign {L : Layout} {r : Run T N} {free : List Nat} (hL : L.WF N)
    (hinv : Inv L r free) {p : Nat} (hp : p = nullptr ∨ N ≤ getIndex L p) :
    r.live.erase p = r.live := by
  apply List.erase_of_not_mem
  intro hm
  have h := hinv.live_index hL hm
  rcases hp with h0 | h1
  · exact h.1 h0
  · omega

theorem Inv.destroy_live {L : Layout} {r : Run T N} {free : List Nat} (hL : L.WF N)
    (hinv : Inv L r free) {p : Nat} (hp : p ∈ r.live) :
    Inv L
      ({ pool :=
          { storage := r.pool.storage.set (getIndex L p) none
            freeIndices := r.pool.freeIndices.set (getIndex L p) r.pool.nextFree
            nextFree := getIndex L p
            trace := Event.destructed p :: r.pool.trace }
         live := r.live.erase p
         lost := r.lost } : Run T N) (getIndex L p :: free) := by
  obtain ⟨_, hiN, e, hi, hil, _⟩ := hinv.live_index hL hp
  have hN := hL.lt_size
  generalize getIndex L p = i at hiN e hi hil
  have hmem : ∀ q, q ∈ r.live.erase p ↔ q ≠ p ∧ q ∈ r.live :=
    fun q => hinv.live_nodup.mem_erase_iff
  refine
    { len_fi := by simp [hinv.len_fi]
      len_st := by simp [hinv.len_st]
      chain := hinv.chain.push hi (by rw [hinv.len_fi]; exact hiN)
        (by unfold INVALID_INDEX; omega)
      free_lt := fun j hj => ?_
      free_nodup := List.nodup_cons.2 ⟨hi, hinv.free_nodup⟩
      free_raw := fun j hj => ?_
      live_nodup := hinv.live_nodup.erase p
      live_slot := fun q hq => ?_
      lost_nodup := hinv.lost_nodup
      lost_slot := fun j hj => ?_
      cover := fun j hj => ?_
      count := ?_ }
  · rcases List.mem_cons.1 hj with e2 | hm
    · rw [e2]; exact hiN
    · exact hinv.free_lt j hm
  · show (r.pool.storage.set i none).getD j none = none
    rcases List.mem_cons.1 hj with e2 | hm
    · rw [e2, getD_set_eq _ _ _ _ (by rw [hinv.len_st]; exact hiN)]
    · have hne : i ≠ j := fun e3 => hi (e3 ▸ hm)
      rw [getD_set_ne _ _ _ _ _ hne]
      exact hinv.free_raw j hm
  · obtain ⟨hqp, hq2⟩ := (hmem q).1 hq
    obtain ⟨j, hjN, e2, hj, hjl, hs⟩ := hinv.live_slot q hq2
    have hne : i ≠ j := fun e3 => hqp (by rw [e2, e, e3])
    refine ⟨j, hjN, e2, fun hm => ?_, hjl, ?_⟩
    · rcases List.mem_cons.1 hm with e3 | hm3
      · exact hne e3.symm
      · exact hj hm3
    · show ((r.pool.storage.set i none).getD j none).isSome = true
      rw [getD_set_ne _ _ _ _ _ hne]
      exact hs
  · obtain ⟨hjN, hj2, hs⟩ := hinv.lost_slot j hj
    have hne : i ≠ j := fun e3 => hil (e3 ▸ hj)
    refine ⟨hjN, fun hm => ?_, ?_⟩
    · rcases List.mem_cons.1 hm with e3 | hm3
      · exact hne e3.symm
      · exact hj2 hm3
    · show (r.pool.storage.set i none).getD j none = none
      rw [getD_set_ne _ _ _ _ _ hne]
      exact hs
  · by_cases hji : j = i
    · exact Or.inl (by rw [hji]; exact List.mem_cons_self _ _)
    · rcases hinv.cover j hj with hf | hl | hv
      · exact Or.inl (List.mem_cons_of_mem _ hf)
      · exact Or.inr (Or.inl hl)
      · refine Or.inr (Or.inr ((hmem _).2 ⟨fun e3 => hji ?_, hv⟩))
        exact slotAddr_inj hL (e3.trans e)
  · have h1 := hinv.count
    have h2 := List.length_erase_of_mem hp
    have h3 : 0 < r.live.length := List.length_pos_of_mem hp
    simp only [List.length_cons] at h1 ⊢
    omega

/-- Every call of a run preserves the representation invariant. -/
theorem Inv.step {L : Layout} {ctor : A → Option T} {r r1 : Run T N} {free : List Nat}
    (hL : L.WF N) (hinv : Inv L r free) {op : Op A} (h : stepOp L ctor r op = some r1) :
    ∃ free1, Inv L r1 free1 := by
  cases op with
  | make args =>
    by_cases hn : r.pool.nextFree = INVALID_INDEX
    · simp only [stepOp, makeObject_null L ctor r.pool args hn, if_true, Option.some.injEq] at h
      subst h
      exact ⟨free, hinv⟩
    · obtain ⟨l, rfl⟩ := hinv.free_cons hn
      cases hv : ctor args with
      | none =>
        simp only [stepOp, makeObject_threw L ctor r.pool args hn hv, Option.some.injEq] at h
        subst h
        exact ⟨l, hinv.make_threw⟩
      | some v =>
        simp only [stepOp, makeObject_some L ctor r.pool args v hn hv, slotAddr_ne_null hL,
          if_false, Option.some.injEq] at h
        subst h
        exact ⟨l, hinv.make_some hL v⟩
  | destroy p =>
    simp only [stepOp] at h
    split at h
    · rename_i hc
      simp only [Option.some.injEq] at h
      by_cases hf : p = nullptr ∨ N ≤ getIndex L p
      · have hs : destroyObject L r.pool p = r.pool := by
          rcases hf with h0 | h1
          · rw [h0]; exact destroyObject_null L _
          · exact destroyObject_foreign L _ p h1
        rw [hs, hinv.erase_foreign hL hf] at h
        subst h
        exact ⟨free, hinv⟩
      · have hp : p ∈ r.live := by tauto
        have hi := hinv.live_index hL hp
        rw [destroyObject_slot L _ p hi.1 hi.2.1] at h
        subst h
        exact ⟨_, hinv.destroy_live hL hp⟩
    · exact absurd h (by simp)

/-- Every state of a run that respects the caller contract satisfies the invariant. -/
theorem Inv.run {L : Layout} {ctor : A → Option T} (hL : L.WF N) :
    ∀ (ops : List (Op A)) {r r1 : Run T N} {free : List Nat}, Inv L r free →
      runOps L ctor r ops = some r1 → ∃ free1, Inv L r1 free1
  | [], r, r1, free, hinv, h => by
    simp only [runOps, Option.some.injEq] at h
    subst h
    exact ⟨free, hinv⟩
  | op :: ops, r, r1, free, hinv, h => by
    simp only [runOps] at h
    cases hs : stepOp L ctor r op with
    | none => simp [hs] at h
    | some r2 =>
      rw [hs] at h
      obtain ⟨free2, hinv2⟩ := hinv.step hL hs
      exact Inv.run hL ops hinv2 h

/-- Invariant of every state reached from a fresh pool. -/
theorem reach_inv {L : Layout} {ctor : A → Option T} (hN : 1 ≤ N) (hL : L.WF N)
    {ops : List (Op A)} {r : Run T N} (h : runOps L ctor (Run.fresh T N) ops = some r) :
    ∃ free, Inv L r free :=
  Inv.run hL ops (fresh_inv L hN hL) h

end Steps

/-! ### Filling and emptying -/

section Bulk

variable {T A : Type} {N : Nat}

theorem pointers_map_returned (f : Nat → Nat) (l : List Nat) :
    pointers (l.map fun i => MakeResult.returned (f i)) = l.map f := by
  induction l with
  | nil => rfl
  | cons a l ih => simp [pointers, ih]

/-- Consecutive calls whose constructors complete take the slots from the head of the free
list, in order. -/
theorem makeMany_pops {L : Layout} (ctor : A → Option T) (hL : L.WF N) :
    ∀ (args : List A) (r : Run T N) (free : List Nat), Inv L r free →
      args.length ≤ free.length → (∀ a ∈ args, (ctor a).isSome = true) →
      (makeMany L ctor r.pool args).1 =
          (free.take args.length).map (fun i => MakeResult.returned (slotAddr L i)) ∧
        ∃ r1 : Run T N, r1.pool = (makeMany L ctor r.pool args).2 ∧
          r1.live = ((free.take args.length).map (slotAddr L)).reverse ++ r.live ∧
          r1.lost = r.lost ∧ Inv L r1 (free.drop args.length) ∧
          runOps L ctor r (args.map Op.make) = some r1
  | [], r, free, hinv, _, _ => by
    simp only [makeMany, List.length_nil, List.take_zero, List.map_nil, List.reverse_nil,
      List.nil_append, List.drop_zero, runOps, true_and]
    exact ⟨r, rfl, rfl, rfl, hinv, rfl⟩
  | a :: as, r, free, hinv, hlen, hok => by
    cases free with
    | nil => simp at hlen
    | cons f l =>
      obtain ⟨h1, h2, _⟩ := hinv.chain
      have hn : r.pool.nextFree ≠ INVALID_INDEX := h1 ▸ h2
      obtain ⟨v, hv⟩ := Option.isSome_iff_exists.1 (hok a (List.mem_cons_self _ _))
      have hm := makeObject_some L ctor r.pool a v hn hv
      rw [h1] at hm
      have hinv1 := hinv.make_some hL v
      obtain ⟨e1, r1, e2, e3, e4, hinv2, e5⟩ := makeMany_pops ctor hL as _ l hinv1
        (by simpa using hlen) (fun b hb => hok b (List.mem_cons_of_mem _ hb))
      simp only [makeMany, hm, List.length_cons, List.take_succ_cons, List.map_cons,
        List.drop_succ_cons, List.reverse_cons, List.append_assoc, List.singleton_append]
      refine ⟨by rw [e1], r1, e2, e3, e4, hinv2, ?_⟩
      simp only [runOps, stepOp, hm, slotAddr_ne_null hL, if_false, Option.bind]
      exact e5

/-- Destroying distinct outstanding pointers, in any order, returns their slots to the free
list. -/
theorem destroyMany_live {L : Layout} (ctor : A → Option T) (hL : L.WF N) :
    ∀ (ps : List Nat) (r : Run T N) (free : List Nat), Inv L r free → ps.Nodup →
      (∀ p ∈ ps, p ∈ r.live) →
      ∃ (r1 : Run T N) (free1 : List Nat), r1.pool = destroyMany L r.pool ps ∧
        r1.live.length + ps.length = r.live.length ∧ r1.lost = r.lost ∧ Inv L r1 free1 ∧
        runOps L ctor r (ps.map Op.destroy) = some r1
  | [], r, free, hinv, _, _ => ⟨r, free, rfl, rfl, rfl, hinv, rfl⟩
  | p :: ps, r, free, hinv, hnd, hsub => by
    have hp : p ∈ r.live := hsub p (List.mem_cons_self _ _)
    have hi := hinv.live_index hL hp
    have hd := destroyObject_slot L r.pool p hi.1 hi.2.1
    have hinv1 := hinv.destroy_live hL hp
    obtain ⟨hpn, hnd2⟩ := List.nodup_cons.1 hnd
    obtain ⟨r1, free1, e1, e2, e3, hinv2, e5⟩ := destroyMany_live ctor hL ps _ _ hinv1
      hnd2 (fun q hq => (hinv.live_nodup.mem_erase_iff).2
        ⟨fun e => hpn (e ▸ hq), hsub q (List.mem_cons_of_mem _ hq)⟩)
    refine ⟨r1, free1, ?_, ?_, e3, hinv2, ?_⟩
    · simp only [destroyMany, List.foldl_cons, hd]
      exact e1
    · have h2 := List.length_erase_of_mem hp
      have h3 : 0 < r.live.length := List.length_pos_of_mem hp
      simp only [List.length_cons] at e2 ⊢
      omega
    · simp only [List.map_cons, runOps, stepOp, hp, or_true, if_true, Option.bind, hd]
      exact e5

end Bulk

/-! ### Capacity of a fresh pool -/

/-- C1: for every capacity `N ≥ 1`, the first `N` consecutive `makeObject` calls on a freshly
constructed pool (with constructors that complete) each return a non-null pointer, and the
call after them returns `nullptr`. -/
theorem fresh_pool_serves_exactly_N {T A : Type} (N : Nat) (hN : 1 ≤ N) (L : Layout)
    (hL : L.WF N) (ctor : A → Option T) (args : List A) (hlen : args.length = N)
    (hctor : ∀ a ∈ args, (ctor a).isSome = true) (extra : A) :
    (makeMany L ctor (Pool.Pool T N) args).1.length = N ∧
    (∀ x ∈ (makeMany L ctor (Pool.Pool T N) args).1,
      ∃ p, x = MakeResult.returned p ∧ p ≠ nullptr) ∧
    (makeObject L ctor (makeMany L ctor (Pool.Pool T N) args).2 extra).1 =
      MakeResult.returned nullptr := by
  have hinv := fresh_inv (T := T) L hN hL
  obtain ⟨e1, r1, e2, _, _, hinv1, _⟩ :=
    makeMany_pops ctor hL args (Run.fresh T N) _ hinv (by simp [hlen]) hctor
  have e1 : (makeMany L ctor (Pool.Pool T N) args).1 = _ := e1
  have e2 : r1.pool = (makeMany L ctor (Pool.Pool T N) args).2 := e2
  refine ⟨by rw [e1]; simp [hlen], fun x hx => ?_, ?_⟩
  · rw [e1] at hx
    obtain ⟨i, _, rfl⟩ := List.mem_map.1 hx
    exact ⟨_, rfl, slotAddr_ne_null hL i⟩
  · rw [← e2]
    have hnil : List.drop args.length (List.range' 0 N) = [] := by simp [hlen]
    rw [hnil] at hinv1
    rw [makeObject_null L ctor r1.pool extra hinv1.chain]

/-- Instance of C1: a pool of two `NoDefaultConstructor` objects placed at address 4096. -/
theorem fresh_pool_serves_exactly_N_witness :
    (1 ≤ 2 ∧ Layout.WF { base := 4096, stride := 4 } 2) ∧
    (makeMany { base := 4096, stride := 4 } NoDefaultConstructor.ctor
      (Pool.Pool NoDefaultConstructor 2) [10, 20]).1 =
        [MakeResult.returned 4096, MakeResult.returned 4100] ∧
    (makeObject { base := 4096, stride := 4 } NoDefaultConstructor.ctor
      (makeMany { base := 4096, stride := 4 } NoDefaultConstructor.ctor
        (Pool.Pool NoDefaultConstructor 2) [10, 20]).2 30).1 = MakeResult.returned nullptr :=
  ⟨⟨by decide, by decide⟩, by decide,
    (fresh_pool_serves_exactly_N 2 (by decide) { base := 4096, stride := 4 } (by decide)
      NoDefaultConstructor.ctor [10, 20] rfl (by decide) 30).2.2⟩

/-! ### Exhaustion -/

/-- C2: in every pool state with `nextFree == INVALID_INDEX`, `makeObject` returns `nullptr`
and the state after the call is the state before it: `nextFree`, every entry of
`freeIndices`, every storage slot, and the record of constructor calls are unchanged. -/
theorem makeObject_exhausted_returns_null {T A : Type} {N : Nat} (L : Layout)
    (ctor : A → Option T) (s : Pool T N) (args : A) (h : s.nextFree = INVALID_INDEX) :
    (makeObject L ctor s args).1 = MakeResult.returned nullptr ∧
    (makeObject L ctor s args).2 = s ∧
    (makeObject L ctor s args).2.nextFree = s.nextFree ∧
    (makeObject L ctor s args).2.freeIndices = s.freeIndices ∧
    (makeObject L ctor s args).2.storage = s.storage ∧
    (makeObject L ctor s args).2.trace = s.trace := by
  rw [makeObject_null L ctor s args h]
  exact ⟨rfl, rfl, rfl, rfl, rfl, rfl⟩

/-- Instance of C2: a full pool of one `NoDefaultConstructor` object. -/
theorem makeObject_exhausted_returns_null_witness :
    makeObject { base := 4096, stride := 4 } NoDefaultConstructor.ctor
      ({ storage := [some { number := 10 }], freeIndices := [INVALID_INDEX],
         nextFree := INVALID_INDEX, trace := [Event.constructed 4096] } :
        Pool NoDefaultConstructor 1) 20 =
      (MakeResult.returned nullptr,
        { storage := [some { number := 10 }], freeIndices := [INVALID_INDEX],
          nextFree := INVALID_INDEX, trace := [Event.constructed 4096] }) :=
  Prod.ext
    (makeObject_exhausted_returns_null { base := 4096, stride := 4 } NoDefaultConstructor.ctor
      _ 20 rfl).1
    (makeObject_exhausted_returns_null { base := 4096, stride := 4 } NoDefaultConstructor.ctor
      _ 20 rfl).2.1

/-! ### Outstanding objects -/

/-- C3: in every state reached from a fresh pool (`N ≥ 1`) by a run that respects the caller
contract, a `makeObject` call that returns a non-null pointer returns the address of a slot
of the pool that holds no object and that no outstanding pointer refers to; the outstanding
pointers are pairwise distinct, and there are at most `N` of them. -/
theorem successful_makeObject_returns_unoccupied_slot {T A : Type} {N : Nat} (hN : 1 ≤ N)
    (L : Layout) (hL : L.WF N) (ctor : A → Option T) (ops : List (Op A)) (r : Run T N)
    (h : runOps L ctor (Run.fresh T N) ops = some r) :
    (∀ (args : A) (p : Nat) (s : Pool T N),
      makeObject L ctor r.pool args = (MakeResult.returned p, s) → p ≠ nullptr →
        getIndex L p < N ∧ p = slotAddr L (getIndex L p) ∧
        r.pool.storage.getD (getIndex L p) none = none ∧
        (∀ q ∈ r.live, getIndex L q ≠ getIndex L p) ∧ p ∉ r.live) ∧
    r.live.Nodup ∧ r.live.length ≤ N := by
  obtain ⟨free, hinv⟩ := reach_inv hN hL h
  refine ⟨fun args p s hm hp => ?_, hinv.live_nodup, by have := hinv.count; omega⟩
  by_cases hn : r.pool.nextFree = INVALID_INDEX
  · rw [makeObject_null L ctor r.pool args hn] at hm
    exact absurd (MakeResult.returned.inj (Prod.mk.inj hm).1).symm hp
  · obtain ⟨l, rfl⟩ := hinv.free_cons hn
    have hmem : r.pool.nextFree ∈ r.pool.nextFree :: l := List.mem_cons_self _ _
    have hlt : r.pool.nextFree < N := hinv.free_lt _ hmem
    cases hv : ctor args with
    | none =>
      rw [makeObject_threw L ctor r.pool args hn hv] at hm
      exact absurd (Prod.mk.inj hm).1 (by simp)
    | some v =>
      rw [makeObject_some L ctor r.pool args v hn hv] at hm
      have hp2 : slotAddr L r.pool.nextFree = p := MakeResult.returned.inj (Prod.mk.inj hm).1
      subst hp2
      rw [getIndex_slotAddr hL hlt]
      have hq : ∀ q ∈ r.live, getIndex L q ≠ r.pool.nextFree := fun q hq e =>
        (hinv.live_index hL hq).2.2.2.1 (e ▸ hmem)
      refine ⟨hlt, rfl, hinv.free_raw _ hmem, hq, fun hm2 => ?_⟩
      exact hq _ hm2 (getIndex_slotAddr hL hlt)

/-- Instance of C3: capacity 2; after two constructions and the destruction of the first
object, the next construction reuses slot 0, which no outstanding pointer refers to. -/
theorem successful_makeObject_returns_unoccupied_slot_witness :
    (1 ≤ 2 ∧ Layout.WF { base := 4096, stride := 4 } 2) ∧
    runOps { base := 4096, stride := 4 } NoDefaultConstructor.ctor
      (Run.fresh NoDefaultConstructor 2) [Op.make 10, Op.make 20, Op.destroy 4096] =
      some { pool := { storage := [none, some { number := 20 }],
                       freeIndices := [INVALID_INDEX, INVALID_INDEX],
                       nextFree := 0,
                       trace := [Event.destructed 4096, Event.constructed 4100,
                         Event.constructed 4096] },
             live := [4100], lost := [] } ∧
    [4100].Nodup ∧ [4100].length ≤ 2 :=
  ⟨⟨by decide, by decide⟩, by decide,
    (successful_makeObject_returns_unoccupied_slot (by decide) { base := 4096, stride := 4 }
      (by decide) NoDefaultConstructor.ctor [Op.make 10, Op.make 20, Op.destroy 4096]
      { pool := { storage := [none, some { number := 20 }],
                  freeIndices := [INVALID_INDEX, INVALID_INDEX],
                  nextFree := 0,
                  trace := [Event.destructed 4096, Event.constructed 4100,
                    Event.constructed 4096] },
        live := [4100], lost := [] } (by decide)).2⟩

/-! ### Rejected pointers -/

/-- C4: in every pool state `destroyObject(nullptr)` changes nothing: `nextFree`,
`freeIndices`, `storage` and the record of destructor calls are as before, and every
subsequent sequence of calls has the same outcomes and final state as without the call. -/
theorem destroyObject_nullptr_is_noop {T A : Type} {N : Nat} (L : Layout) (s : Pool T N) :
    destroyObject L s nullptr = s ∧
    (destroyObject L s nullptr).nextFree = s.nextFree ∧
    (destroyObject L s nullptr).freeIndices = s.freeIndices ∧
    (destroyObject L s nullptr).storage = s.storage ∧
    (destroyObject L s nullptr).trace = s.trace ∧
    ∀ (ctor : A → Option T) (ops : List (Op A)),
      execOps L ctor (destroyObject L s nullptr) ops = execOps L ctor s ops := by
  rw [destroyObject_null L s]
  exact ⟨rfl, rfl, rfl, rfl, rfl, fun _ _ => rfl⟩

/-- C5: in every pool state, `destroyObject` of a non-null pointer whose index computed by
`getIndex` is not in `[0, N)` changes nothing: `nextFree`, every entry of `freeIndices`,
the storage, and the record of destructor calls are as before. -/
theorem destroyObject_out_of_range_is_noop {T : Type} {N : Nat} (L : Layout) (s : Pool T N)
    (p : Nat) (_hp : p ≠ nullptr) (h : ¬ getIndex L p < N) :
    destroyObject L s p = s ∧
    (destroyObject L s p).nextFree = s.nextFree ∧
    (destroyObject L s p).freeIndices = s.freeIndices ∧
    (destroyObject L s p).storage = s.storage ∧
    (destroyObject L s p).trace = s.trace := by
  rw [destroyObject_foreign L s p (by omega)]
  exact ⟨rfl, rfl, rfl, rfl, rfl⟩

/-- Instance of C5: the address one past the end of a full pool of capacity 2. -/
theorem destroyObject_out_of_range_is_noop_witness :
    (4104 ≠ nullptr ∧ ¬ getIndex { base := 4096, stride := 4 } 4104 < 2) ∧
    destroyObject { base := 4096, stride := 4 }
      ({ storage := [some { number := 10 }, some { number := 20 }],
         freeIndices := [1, INVALID_INDEX], nextFree := INVALID_INDEX,
         trace := [Event.constructed 4100, Event.constructed 4096] } :
        Pool NoDefaultConstructor 2) 4104 =
      { storage := [some { number := 10 }, some { number := 20 }],
        freeIndices := [1, INVALID_INDEX], nextFree := INVALID_INDEX,
        trace := [Event.constructed 4100, Event.constructed 4096] } :=
  ⟨⟨by decide, by decide⟩,
    (destroyObject_out_of_range_is_noop { base := 4096, stride := 4 } _ 4104 (by decide)
      (by decide)).1⟩

/-! ### Pointers outside the storage block -/

/-- C6: for every pointer whose address does not lie inside the storage block
`[base, base + N * sizeof(Storage))`, be it below the base (by less than one slot or by
more) or at or beyond the end, `getIndex` yields a value of at least `N`; `destroyObject`
therefore ignores the pointer: the state is unchanged, and so is the outcome of every
subsequent sequence of calls, the number of successful `makeObject` calls included. -/
theorem destroyObject_ignores_pointer_outside_block {T A : Type} {N : Nat} (L : Layout)
    (hL : L.WF N) (s : Pool T N) (p : Nat) (hp : p < 2 ^ 64)
    (hout : p < L.base ∨ L.base + N * L.stride ≤ p) :
    N ≤ getIndex L p ∧
    destroyObject L s p = s ∧
    ∀ (ctor : A → Option T) (ops : List (Op A)),
      execOps L ctor (destroyObject L s p) ops = execOps L ctor s ops := by
  have h := getIndex_outside_block hL p hp hout
  rw [destroyObject_foreign L s p h]
  exact ⟨h, rfl, fun _ _ => rfl⟩

/-- Instance of C6: a full pool of two `Derived` objects whose storage block is
`[4104, 4200)`, and the address 4096, 8 bytes below the block. -/
theorem destroyObject_ignores_pointer_outside_block_witness :
    (Layout.WF { base := 4104, stride := 48 } 2 ∧ 4096 < 2 ^ 64 ∧ 4096 < 4104) ∧
    getIndex { base := 4104, stride := 48 } 4096 = 6148914691236517205 ∧
    destroyObject { base := 4104, stride := 48 }
      (makeMany { base := 4104, stride := 48 } Derived.ctor
        (Pool.Pool Derived 2) [(), ()]).2 4096 =
      (makeMany { base := 4104, stride := 48 } Derived.ctor (Pool.Pool Derived 2) [(), ()]).2 :=
  ⟨⟨by decide, by decide, by decide⟩, by decide,
    (destroyObject_ignores_pointer_outside_block (A := Unit) { base := 4104, stride := 48 }
      (by decide) _ 4096 (by decide) (Or.inl (by decide))).2.1⟩

/-! ### Reuse of a released slot -/

/-- A write to an entry outside the free list does not change what a walk of it meets. -/
theorem walk_set_of_chain {fi : List Nat} {i v : Nat} :
    ∀ {h : Nat} {l : List Nat}, IsChain fi h l → i ∉ l →
      ∀ fuel, walk (fi.set i v) fuel h = walk fi fuel h
  | _, _, _, _, 0 => rfl
  | _, [], hc, _, fuel + 1 => by
    have : _ = INVALID_INDEX := hc
    simp [walk, this]
  | _, a :: l, ⟨h1, h2, h3⟩, hi, fuel + 1 => by
    have hne : i ≠ a := fun e => hi (by simp [e])
    subst h1
    simp only [walk, h2, if_false]
    rw [getD_set_ne _ _ _ _ _ hne,
      walk_set_of_chain h3 (fun hm => hi (List.mem_cons_of_mem _ hm)) fuel]

/-- C7: in every state reached from a fresh pool by a run that respects the caller contract,
for every outstanding pointer `p` (a pointer to an occupied slot), `destroyObject(p)`
immediately followed by a `makeObject` whose constructor completes returns `p` again, the
address of the same slot, and afterwards `nextFree` and the sequence of free slots reachable
from it are what they were before the `destroyObject` call. -/
theorem destroy_then_make_reuses_slot {T A : Type} {N : Nat} (hN : 1 ≤ N) (L : Layout)
    (hL : L.WF N) (ctor : A → Option T) (ops : List (Op A)) (r : Run T N)
    (h : runOps L ctor (Run.fresh T N) ops = some r) (p : Nat) (hp : p ∈ r.live) (args : A)
    (hctor : (ctor args).isSome = true) :
    (makeObject L ctor (destroyObject L r.pool p) args).1 = MakeResult.returned p ∧
    p = slotAddr L (getIndex L p) ∧ getIndex L p < N ∧
    (r.pool.storage.getD (getIndex L p) none).isSome = true ∧
    (makeObject L ctor (destroyObject L r.pool p) args).2.nextFree = r.pool.nextFree ∧
    (∀ fuel, walk (makeObject L ctor (destroyObject L r.pool p) args).2.freeIndices fuel
        (makeObject L ctor (destroyObject L r.pool p) args).2.nextFree =
      walk r.pool.freeIndices fuel r.pool.nextFree) ∧
    freeList (makeObject L ctor (destroyObject L r.pool p) args).2 = freeList r.pool := by
  obtain ⟨free, hinv⟩ := reach_inv hN hL h
  obtain ⟨h0, hiN, e, hi, _, hs⟩ := hinv.live_index hL hp
  obtain ⟨v, hv⟩ := Option.isSome_iff_exists.1 hctor
  have hN2 := hL.lt_size
  have hne : getIndex L p ≠ INVALID_INDEX := by unfold INVALID_INDEX; omega
  have hlen : getIndex L p < r.pool.freeIndices.length := by rw [hinv.len_fi]; exact hiN
  rw [destroyObject_slot L r.pool p h0 hiN, makeObject_some L ctor _ args v hne hv]
  have hw : ∀ fuel, walk (r.pool.freeIndices.set (getIndex L p) r.pool.nextFree) fuel
      ((r.pool.freeIndices.set (getIndex L p) r.pool.nextFree).getD (getIndex L p) 0) =
      walk r.pool.freeIndices fuel r.pool.nextFree := by
    intro fuel
    rw [getD_set_eq _ _ _ _ hlen]
    exact walk_set_of_chain hinv.chain hi fuel
  refine ⟨by rw [← e], e, hiN, hs, getD_set_eq _ _ _ _ hlen, hw, hw N⟩

/-- Instance of C7: capacity 2, both slots occupied; destroying the first object and
constructing again returns its address 4096 and leaves the free list empty as before. -/
theorem destroy_then_make_reuses_slot_witness :
    (1 ≤ 2 ∧ Layout.WF { base := 4096, stride := 4 } 2) ∧
    runOps { base := 4096, stride := 4 } NoDefaultConstructor.ctor
      (Run.fresh NoDefaultConstructor 2) [Op.make 10, Op.make 20] =
      some { pool := { storage := [some { number := 10 }, some { number := 20 }],
                       freeIndices := [1, INVALID_INDEX],
                       nextFree := INVALID_INDEX,
                       trace := [Event.constructed 4100, Event.constructed 4096] },
             live := [4100, 4096], lost := [] } ∧
    (makeObject { base := 4096, stride := 4 } NoDefaultConstructor.ctor
      (destroyObject { base := 4096, stride := 4 }
        ({ storage := [some { number := 10 }, some { number := 20 }],
           freeIndices := [1, INVALID_INDEX],
           nextFree := INVALID_INDEX,
           trace := [Event.constructed 4100, Event.constructed 4096] } :
          Pool NoDefaultConstructor 2) 4096) 30).1 = MakeResult.returned 4096 :=
  ⟨⟨by decide, by decide⟩, by decide,
    (destroy_then_make_reuses_slot (by decide) { base := 4096, stride := 4 } (by decide)
      NoDefaultConstructor.ctor [Op.make 10, Op.make 20]
      { pool := { storage := [some { number := 10 }, some { number := 20 }],
                  freeIndices := [1, INVALID_INDEX],
                  nextFree := INVALID_INDEX,
                  trace := [Event.constructed 4100, Event.constructed 4096] },
        live := [4100, 4096], lost := [] } (by decide) 4096 (by decide) 30 (by decide)).1⟩

/-! ### Exhaustion and recovery -/

/-- C8: for every `N ≥ 1`, after a fresh pool has been filled by `N` `makeObject` calls and
all `N` returned pointers have been passed to `destroyObject` once each, in any order, the
next `N` `makeObject` calls (with constructors that complete) all return non-null pointers
to pairwise distinct slots, and the call after them returns `nullptr`. -/
theorem refill_after_release_in_any_order {T A : Type} {N : Nat} (hN : 1 ≤ N) (L : Layout)
    (hL : L.WF N) (ctor : A → Option T)
    (args1 : List A) (hlen1 : args1.length = N) (hctor1 : ∀ a ∈ args1, (ctor a).isSome = true)
    (order : List Nat)
    (horder : order.Perm (pointers (makeMany L ctor (Pool.Pool T N) args1).1))
    (args2 : List A) (hlen2 : args2.length = N) (hctor2 : ∀ a ∈ args2, (ctor a).isSome = true)
    (extra : A) :
    (makeMany L ctor
      (destroyMany L (makeMany L ctor (Pool.Pool T N) args1).2 order) args2).1.length = N ∧
    (∀ x ∈ (makeMany L ctor
        (destroyMany L (makeMany L ctor (Pool.Pool T N) args1).2 order) args2).1,
      ∃ p, x = MakeResult.returned p ∧ p ≠ nullptr ∧ getIndex L p < N ∧
        p = slotAddr L (getIndex L p)) ∧
    (pointers (makeMany L ctor
      (destroyMany L (makeMany L ctor (Pool.Pool T N) args1).2 order) args2).1).Nodup ∧
    ((pointers (makeMany L ctor
      (destroyMany L (makeMany L ctor (Pool.Pool T N) args1).2 order) args2).1).map
        (getIndex L)).Nodup ∧
    (makeObject L ctor (makeMany L ctor
      (destroyMany L (makeMany L ctor (Pool.Pool T N) args1).2 order) args2).2 extra).1 =
      MakeResult.returned nullptr := by
  have hinv := fresh_inv (T := T) L hN hL
  -- the fill
  obtain ⟨e1, r1, e2, e3, e4, hinv1, _⟩ :=
    makeMany_pops ctor hL args1 (Run.fresh T N) _ hinv (by simp [hlen1]) hctor1
  have e1 : (makeMany L ctor (Pool.Pool T N) args1).1 = _ := e1
  have e2 : r1.pool = (makeMany L ctor (Pool.Pool T N) args1).2 := e2
  rw [e1, pointers_map_returned] at horder
  have e3 : r1.live = ((List.take args1.length (List.range' 0 N)).map (slotAddr L)).reverse := by
    rw [e3]; simp [Run.fresh]
  have hperm : order.Perm r1.live := by
    rw [e3]
    exact horder.trans (List.reverse_perm _).symm
  have e4 : r1.lost = [] := e4
  -- the release
  obtain ⟨r2, free2, f1, f2, f3, hinv2, _⟩ := destroyMany_live ctor hL order r1 _ hinv1
    (hperm.nodup_iff.2 hinv1.live_nodup) (fun p hp => hperm.mem_iff.1 hp)
  have hcount := hinv2.count
  have hl := hperm.length_eq
  rw [f3, e4] at hcount
  have hfree2 : free2.length = N := by simp only [List.length_nil] at hcount; omega
  -- the refill
  obtain ⟨g1, r3, g2, _, _, hinv3, _⟩ :=
    makeMany_pops ctor hL args2 r2 free2 hinv2 (by omega) hctor2
  rw [f1, e2] at g1 g2
  have htake : List.take args2.length free2 = free2 :=
    List.take_of_length_le (by omega)
  have hdrop : List.drop args2.length free2 = [] :=
    List.drop_of_length_le (by omega)
  rw [htake] at g1
  rw [hdrop] at hinv3
  have hidx : free2.map (fun i => getIndex L (slotAddr L i)) = free2.map id :=
    List.map_congr_left (fun i hi => getIndex_slotAddr hL (hinv2.free_lt i hi))
  rw [g1, pointers_map_returned, ← g2, List.map_map]
  refine ⟨by simp [hfree2], fun x hx => ?_, ?_, ?_, ?_⟩
  · obtain ⟨i, hi, rfl⟩ := List.mem_map.1 hx
    have hiN := hinv2.free_lt i hi
    exact ⟨_, rfl, slotAddr_ne_null hL i, by rw [getIndex_slotAddr hL hiN]; exact hiN,
      by rw [getIndex_slotAddr hL hiN]⟩
  · exact hinv2.free_nodup.map (fun i j e => slotAddr_inj hL e)
  · have : (getIndex L ∘ slotAddr L) = fun i => getIndex L (slotAddr L i) := rfl
    rw [this, hidx, List.map_id]
    exact hinv2.free_nodup
  · rw [makeObject_null L ctor r3.pool extra hinv3.chain]

/-- Instance of C8, the scenario of the specification: capacity 2, two constructions, the
two pointers destroyed in reverse order, and two constructions again. -/
theorem refill_after_release_in_any_order_witness :
    (1 ≤ 2 ∧ Layout.WF { base := 4096, stride := 4 } 2) ∧
    (makeMany { base := 4096, stride := 4 } NoDefaultConstructor.ctor
      (Pool.Pool NoDefaultConstructor 2) [10, 20]).1 =
        [MakeResult.returned 4096, MakeResult.returned 4100] ∧
    (makeMany { base := 4096, stride := 4 } NoDefaultConstructor.ctor
      (destroyMany { base := 4096, stride := 4 }
        (makeMany { base := 4096, stride := 4 } NoDefaultConstructor.ctor
          (Pool.Pool NoDefaultConstructor 2) [10, 20]).2 [4100, 4096]) [30, 40]).1 =
        [MakeResult.returned 4096, MakeResult.returned 4100] ∧
    (makeObject { base := 4096, stride := 4 } NoDefaultConstructor.ctor
      (makeMany { base := 4096, stride := 4 } NoDefaultConstructor.ctor
        (destroyMany { base := 4096, stride := 4 }
          (makeMany { base := 4096, stride := 4 } NoDefaultConstructor.ctor
            (Pool.Pool NoDefaultConstructor 2) [10, 20]).2 [4100, 4096]) [30, 40]).2 50).1 =
        MakeResult.returned nullptr :=
  ⟨⟨by decide, by decide⟩, by decide, by decide,
    (refill_after_release_in_any_order (by decide) { base := 4096, stride := 4 } (by decide)
      NoDefaultConstructor.ctor [10, 20] rfl (by decide) [4100, 4096]
      (List.Perm.swap 4096 4100 []) [30, 40] rfl (by decide) 50).2.2.2.2⟩

/-! ### Construction in place -/

/-- C9: in every pool state with a free slot, a `makeObject(args...)` whose constructor
completes returns the non-null address of the slot at the head of the free list, and the
object read through the returned pointer is the value that the direct construction
`T(args...)` yields. -/
theorem makeObject_stores_constructed_value {T A : Type} {N : Nat} (L : Layout)
    (hL : L.WF N) (ctor : A → Option T) (s : Pool T N) (hlen : s.storage.length = N)
    (hfree : s.nextFree < N) (args : A) (hctor : (ctor args).isSome = true) :
    (makeObject L ctor s args).1 = MakeResult.returned (slotAddr L s.nextFree) ∧
    slotAddr L s.nextFree ≠ nullptr ∧
    deref L (makeObject L ctor s args).2 (slotAddr L s.nextFree) = ctor args := by
  obtain ⟨v, hv⟩ := Option.isSome_iff_exists.1 hctor
  have hN := hL.lt_size
  have hne : s.nextFree ≠ INVALID_INDEX := by unfold INVALID_INDEX; omega
  rw [makeObject_some L ctor s args v hne hv, hv]
  refine ⟨rfl, slotAddr_ne_null hL _, ?_⟩
  unfold deref
  rw [getIndex_slotAddr hL hfree]
  exact getD_set_eq _ _ _ _ (by rw [hlen]; exact hfree)

/-- Instance of C9, the two tests of `unit.cpp`: `makeObject(10)` on a fresh pool of two
`NoDefaultConstructor` objects reads back 10, and `makeObject()` on a fresh pool of two
`Derived` objects reads back 1, 2 and 3 from the two bases and the derived part. -/
theorem makeObject_stores_constructed_value_witness :
    ((deref { base := 4096, stride := 4 }
        (makeObject { base := 4096, stride := 4 } NoDefaultConstructor.ctor
          (Pool.Pool NoDefaultConstructor 2) 10).2 4096).map NoDefaultConstructor.getNumber =
      some 10) ∧
    ((deref { base := 4104, stride := 48 }
        (makeObject { base := 4104, stride := 48 } Derived.ctor
          (Pool.Pool Derived 2) ()).2 4104).map
        (fun d => (d.getNumber1, d.getNumber2, d.getNumber3)) = some (1, 2, 3)) :=
  ⟨congrArg (Option.map NoDefaultConstructor.getNumber)
      (makeObject_stores_constructed_value { base := 4096, stride := 4 } (by decide)
        NoDefaultConstructor.ctor (Pool.Pool NoDefaultConstructor 2) rfl (by decide) 10
        rfl).2.2,
    congrArg (Option.map fun d => (d.getNumber1, d.getNumber2, d.getNumber3))
      (makeObject_stores_constructed_value { base := 4104, stride := 48 } (by decide)
        Derived.ctor (Pool.Pool Derived 2) rfl (by decide) () rfl).2.2⟩

/-! ### Independence of the objects -/

/-- C10: in every state reached from a fresh pool by a run that respects the caller
contract, `makeObject` changes no storage slot but the one it returns and `destroyObject(p)`
changes no storage slot but the one of `p`; hence the object read through any other
outstanding pointer is the same before and after the call. -/
theorem objects_are_independent {T A : Type} {N : Nat} (hN : 1 ≤ N) (L : Layout)
    (hL : L.WF N) (ctor : A → Option T) (ops : List (Op A)) (r : Run T N)
    (h : runOps L ctor (Run.fresh T N) ops = some r) :
    (∀ (args : A) (p : Nat) (s : Pool T N),
      makeObject L ctor r.pool args = (MakeResult.returned p, s) →
        ∀ j, j ≠ getIndex L p → s.storage.getD j none = r.pool.storage.getD j none) ∧
    (∀ (args : A) (q : Nat), q ∈ r.live →
      deref L (makeObject L ctor r.pool args).2 q = deref L r.pool q) ∧
    (∀ (p j : Nat), j ≠ getIndex L p →
      (destroyObject L r.pool p).storage.getD j none = r.pool.storage.getD j none) ∧
    (∀ (p q : Nat), (p = nullptr ∨ N ≤ getIndex L p ∨ p ∈ r.live) → q ∈ r.live → q ≠ p →
      deref L (destroyObject L r.pool p) q = deref L r.pool q) := by
  obtain ⟨free, hinv⟩ := reach_inv hN hL h
  have hmake : ∀ (args : A) (j : Nat), j ≠ r.pool.nextFree →
      (makeObject L ctor r.pool args).2.storage.getD j none = r.pool.storage.getD j none := by
    intro args j hj
    by_cases hn : r.pool.nextFree = INVALID_INDEX
    · rw [makeObject_null L ctor r.pool args hn]
    · cases hv : ctor args with
      | none => rw [makeObject_threw L ctor r.pool args hn hv]
      | some v =>
        rw [makeObject_some L ctor r.pool args v hn hv]
        exact getD_set_ne _ _ _ _ _ (Ne.symm hj)
  have hdestroy : ∀ (p j : Nat), j ≠ getIndex L p →
      (destroyObject L r.pool p).storage.getD j none = r.pool.storage.getD j none := by
    intro p j hj
    by_cases h0 : p = nullptr
    · rw [h0, destroyObject_null]
    · by_cases h1 : N ≤ getIndex L p
      · rw [destroyObject_foreign L _ p h1]
      · rw [destroyObject_slot L _ p h0 (by omega)]
        exact getD_set_ne _ _ _ _ _ (Ne.symm hj)
  refine ⟨fun args p s hm j hj => ?_, fun args q hq => ?_, hdestroy, fun p q hc hq hne => ?_⟩
  · by_cases hn : r.pool.nextFree = INVALID_INDEX
    · rw [makeObject_null L ctor r.pool args hn] at hm
      rw [← (Prod.mk.inj hm).2]
    · obtain ⟨l, hl⟩ := hinv.free_cons hn
      have hlt : r.pool.nextFree < N := hinv.free_lt _ (hl ▸ List.mem_cons_self _ _)
      have e := congrArg Prod.snd hm
      simp only at e
      rw [← e]
      apply hmake
      cases hv : ctor args with
      | none =>
        rw [makeObject_threw L ctor r.pool args hn hv] at hm
        exact absurd (Prod.mk.inj hm).1 (by simp)
      | some v =>
        rw [makeObject_some L ctor r.pool args v hn hv] at hm
        rw [← MakeResult.returned.inj (Prod.mk.inj hm).1, getIndex_slotAddr hL hlt] at hj
        exact hj
  · unfold deref
    by_cases hn : r.pool.nextFree = INVALID_INDEX
    · rw [makeObject_null L ctor r.pool args hn]
    · obtain ⟨l, hl⟩ := hinv.free_cons hn
      apply hmake
      intro e
      exact (hinv.live_index hL hq).2.2.2.1 (by rw [e, hl]; exact List.mem_cons_self _ _)
  · unfold deref
    by_cases hf : p = nullptr ∨ N ≤ getIndex L p
    · rcases hf with h0 | h1
      · rw [h0, destroyObject_null]
      · rw [destroyObject_foreign L _ p h1]
    · have hp : p ∈ r.live := by tauto
      apply hdestroy
      intro e
      have e1 := (hinv.live_index hL hp).2.2.1
      have e2 := (hinv.live_index hL hq).2.2.1
      exact hne (by rw [e1, e2, e])

/-- Instance of C10, the scenario of the specification: in a pool of capacity 2 holding
`NoDefaultConstructor(10)`, the call `makeObject(20)` leaves the first object reading 10,
and the second object reads 20. -/
theorem objects_are_independent_witness :
    (1 ≤ 2 ∧ Layout.WF { base := 4096, stride := 4 } 2) ∧
    runOps { base := 4096, stride := 4 } NoDefaultConstructor.ctor
      (Run.fresh NoDefaultConstructor 2) [Op.make 10] =
      some { pool := { storage := [some { number := 10 }, none],
                       freeIndices := [1, INVALID_INDEX],
                       nextFree := 1,
                       trace := [Event.constructed 4096] },
             live := [4096], lost := [] } ∧
    deref { base := 4096, stride := 4 }
      (makeObject { base := 4096, stride := 4 } NoDefaultConstructor.ctor
        ({ storage := [some { number := 10 }, none],
           freeIndices := [1, INVALID_INDEX],
           nextFree := 1,
           trace := [Event.constructed 4096] } : Pool NoDefaultConstructor 2) 20).2 4096 =
      some { number := 10 } ∧
    deref { base := 4096, stride := 4 }
      (makeObject { base := 4096, stride := 4 } NoDefaultConstructor.ctor
        ({ storage := [some { number := 10 }, none],
           freeIndices := [1, INVALID_INDEX],
           nextFree := 1,
           trace := [Event.constructed 4096] } : Pool NoDefaultConstructor 2) 20).2 4100 =
      some { number := 20 } :=
  ⟨⟨by decide, by decide⟩, by decide,
    ((objects_are_independent (by decide) { base := 4096, stride := 4 } (by decide)
      NoDefaultConstructor.ctor [Op.make 10]
      { pool := { storage := [some { number := 10 }, none],
                  freeIndices := [1, INVALID_INDEX],
                  nextFree := 1,
                  trace := [Event.constructed 4096] },
        live := [4096], lost := [] } (by decide)).2.1 20 4096 (by decide)).trans (by decide),
    by decide⟩

/-! ### The free list of a reachable state -/

theorem getElem?_of_getD {l : List Nat} {i v : Nat} (hi : i < l.length)
    (h : l.getD i 0 = v) : l[i]? = some v := by
  rw [List.getD_eq_getElem?_getD, List.getElem?_eq_getElem hi] at h
  rw [List.getElem?_eq_getElem hi]
  exact congrArg some h

theorem Inv.free_length_le {T : Type} {N : Nat} {L : Layout} {r : Run T N} {free : List Nat}
    (hinv : Inv L r free) : free.length ≤ N := by
  have := hinv.count
  omega

/-- The walk from `nextFree` meets exactly the free slots of the invariant, whatever the bound
on its length from `N` on. -/
theorem Inv.walk_eq {T : Type} {N : Nat} {L : Layout} {r : Run T N} {free : List Nat}
    (hinv : Inv L r free) (fuel : Nat) (hfuel : N ≤ fuel) :
    walk r.pool.freeIndices fuel r.pool.nextFree = free :=
  walk_of_chain hinv.chain (Nat.le_trans hinv.free_length_le hfuel)

theorem Inv.freeList_eq {T : Type} {N : Nat} {L : Layout} {r : Run T N} {free : List Nat}
    (hinv : Inv L r free) : freeList r.pool = free :=
  hinv.walk_eq N (Nat.le_refl N)

/-- In a reachable state a slot is free exactly when it is a slot of the pool that is neither
occupied nor lost to a constructor that threw. -/
theorem Inv.mem_free_iff {T : Type} {N : Nat} {L : Layout} {r : Run T N} {free : List Nat}
    (hL : L.WF N) (hinv : Inv L r free) (i : Nat) :
    i ∈ free ↔ i < N ∧ slotAddr L i ∉ r.live ∧ i ∉ r.lost := by
  constructor
  · intro hi
    refine ⟨hinv.free_lt i hi, fun hm => ?_, fun hm => (hinv.lost_slot i hm).2.1 hi⟩
    obtain ⟨j, _, e, hj, _⟩ := hinv.live_slot _ hm
    exact hj (slotAddr_inj hL e ▸ hi)
  · rintro ⟨hiN, h1, h2⟩
    rcases hinv.cover i hiN with h | h | h
    · exact h
    · exact absurd h h2
    · exact absurd h h1

/-- Entries of `freeIndices` on the free list are the next free slot, or the end marker. -/
theorem IsChain.next_mem {fi : List Nat} :
    ∀ {h : Nat} {l : List Nat}, IsChain fi h l → ∀ i ∈ l,
      fi.getD i 0 = INVALID_INDEX ∨ fi.getD i 0 ∈ l
  | _, [], _, _, hi => by simp at hi
  | _, a :: l, ⟨_, _, h3⟩, i, hi => by
    rcases List.mem_cons.1 hi with e | hm
    · subst e
      cases l with
      | nil => exact Or.inl h3
      | cons b l2 => exact Or.inr (by rw [h3.1]; simp)
    · rcases IsChain.next_mem h3 i hm with h | h
      · exact Or.inl h
      · exact Or.inr (List.mem_cons_of_mem _ h)

/-! ### A constructor that throws -/

/-- C11 as amended: when the constructor of `T` throws during `makeObject` on a pool with a free
slot, the exception propagates and the slot is not returned to the free list: `nextFree` has
become `freeIndices[nextFree]` while `freeIndices`, `storage` and the record of constructions
are unchanged, so that, in a state reached from a fresh pool by a run that respects the caller
contract, the free list after the call is the free list before it without its head, and the
slot that was its head is neither free nor occupied. -/
theorem throwing_constructor_loses_slot {T A : Type} {N : Nat} (hN : 1 ≤ N) (L : Layout)
    (hL : L.WF N) (ctor : A → Option T) (ops : List (Op A)) (r : Run T N)
    (h : runOps L ctor (Run.fresh T N) ops = some r) (args : A)
    (hfree : r.pool.nextFree ≠ INVALID_INDEX) (hthrow : ctor args = none) :
    (makeObject L ctor r.pool args).1 = MakeResult.threw ∧
    (makeObject L ctor r.pool args).2.nextFree =
      r.pool.freeIndices.getD r.pool.nextFree 0 ∧
    (makeObject L ctor r.pool args).2.freeIndices = r.pool.freeIndices ∧
    (makeObject L ctor r.pool args).2.storage = r.pool.storage ∧
    (makeObject L ctor r.pool args).2.trace = r.pool.trace ∧
    freeList r.pool = r.pool.nextFree :: freeList (makeObject L ctor r.pool args).2 ∧
    r.pool.nextFree ∉ freeList (makeObject L ctor r.pool args).2 ∧
    r.pool.storage.getD r.pool.nextFree none = none ∧
    slotAddr L r.pool.nextFree ∉ r.live := by
  obtain ⟨free, hinv⟩ := reach_inv hN hL h
  obtain ⟨l, rfl⟩ := hinv.free_cons hfree
  have hinv2 := hinv.make_threw
  have e1 := hinv.freeList_eq
  have e2 : freeList ({ r.pool with
      nextFree := r.pool.freeIndices.getD r.pool.nextFree 0 } : Pool T N) = l :=
    hinv2.freeList_eq
  have hmem : r.pool.nextFree ∈ r.pool.nextFree :: l := List.mem_cons_self _ _
  rw [makeObject_threw L ctor r.pool args hfree hthrow, e1, e2]
  exact ⟨rfl, rfl, rfl, rfl, rfl, rfl, (List.nodup_cons.1 hinv.free_nodup).1,
    hinv.free_raw _ hmem, ((hinv.mem_free_iff hL _).1 hmem).2.1⟩

/-- Instance of C11 as amended: a pool of two integers whose constructor rejects negative
arguments; the call `makeObject(-1)` on the fresh pool throws. -/
theorem throwing_constructor_loses_slot_witness :
    (1 ≤ 2 ∧ Layout.WF { base := 4096, stride := 8 } 2) ∧
    makeObject { base := 4096, stride := 8 } (fun n : Int => if n < 0 then none else some n)
      (Pool.Pool Int 2) (-1) =
      (MakeResult.threw,
        { storage := [none, none], freeIndices := [1, INVALID_INDEX], nextFree := 1,
          trace := [] }) ∧
    freeList (Pool.Pool Int 2) =
      0 :: freeList (makeObject { base := 4096, stride := 8 }
        (fun n : Int => if n < 0 then none else some n) (Pool.Pool Int 2) (-1)).2 :=
  ⟨⟨by decide, by decide⟩, by decide,
    (throwing_constructor_loses_slot (by decide) { base := 4096, stride := 8 } (by decide)
      (fun n : Int => if n < 0 then none else some n) [] (Run.fresh Int 2) rfl (-1)
      (by decide) (by decide)).2.2.2.2.2.1⟩

/-- C11 as stated fails: on a fresh pool of two integers whose constructor rejects negative
arguments, `makeObject(-1)` throws and leaves `nextFree = 1` instead of `0` and the free list
`[1]` instead of `[0, 1]`; two `makeObject` calls succeed on the fresh pool but only one
after the failed call. -/
theorem throwing_constructor_does_not_restore_free_list :
    (makeObject { base := 4096, stride := 8 } (fun n : Int => if n < 0 then none else some n)
      (Pool.Pool Int 2) (-1)).1 = MakeResult.threw ∧
    (Pool.Pool Int 2).nextFree = 0 ∧
    (makeObject { base := 4096, stride := 8 } (fun n : Int => if n < 0 then none else some n)
      (Pool.Pool Int 2) (-1)).2.nextFree = 1 ∧
    freeList (Pool.Pool Int 2) = [0, 1] ∧
    freeList (makeObject { base := 4096, stride := 8 }
      (fun n : Int => if n < 0 then none else some n) (Pool.Pool Int 2) (-1)).2 = [1] ∧
    (makeMany { base := 4096, stride := 8 } (fun n : Int => if n < 0 then none else some n)
      (Pool.Pool Int 2) [10, 20]).1 = [MakeResult.returned 4096, MakeResult.returned 4104] ∧
    (makeMany { base := 4096, stride := 8 } (fun n : Int => if n < 0 then none else some n)
      (makeObject { base := 4096, stride := 8 }
        (fun n : Int => if n < 0 then none else some n) (Pool.Pool Int 2) (-1)).2
      [10, 20]).1 = [MakeResult.returned 4104, MakeResult.returned nullptr] := by
  decide

/-! ### The state the constructor establishes -/

theorem fresh_chain_size {fi : List Nat} {N : Nat} (hN : N < 2 ^ 64)
    (hfi : ∀ i, i < N → fi.getD i 0 = if i < N - 1 then i + 1 else INVALID_INDEX) :
    ∀ n k, k + n = N → IsChain fi (if n = 0 then INVALID_INDEX else k) (List.range' k n)
  | 0, _, _ => by simp [IsChain]
  | n + 1, k, hk => by
    have ih := fresh_chain_size hN hfi n (k + 1) (by omega)
    simp only [List.range'_succ, IsChain]
    refine ⟨by simp, by unfold INVALID_INDEX; omega, ?_⟩
    rw [hfi k (by omega)]
    by_cases hn : n = 0
    · subst hn
      have : ¬ k < N - 1 := by omega
      simpa [this] using ih
    · have : k < N - 1 := by omega
      simpa [this, hn] using ih

/-- C12: for every `N ≥ 1`, the freshly constructed pool has `nextFree = 0`,
`freeIndices[i] = i + 1` for every `i < N - 1` and `freeIndices[N - 1] = INVALID_INDEX`; the
walk of the free list from `nextFree` visits the slots `0, 1, ..., N - 1` in this order and
then ends, and no slot holds an object. -/
theorem fresh_pool_chains_slots_in_order (T : Type) (N : Nat) (hN : 1 ≤ N)
    (hsize : N < 2 ^ 64) :
    (Pool.Pool T N).nextFree = 0 ∧
    (Pool.Pool T N).freeIndices.length = N ∧
    (∀ i, i < N - 1 → (Pool.Pool T N).freeIndices[i]? = some (i + 1)) ∧
    (Pool.Pool T N).freeIndices[N - 1]? = some INVALID_INDEX ∧
    freeList (Pool.Pool T N) = List.range N ∧
    (∀ fuel, N ≤ fuel →
      walk (Pool.Pool T N).freeIndices fuel (Pool.Pool T N).nextFree = List.range N) ∧
    (Pool.Pool T N).storage = List.replicate N none ∧
    (Pool.Pool T N).trace = [] := by
  have hlen : (Pool.Pool T N).freeIndices.length = N := fresh_length.1
  have hent := fun i hi => fresh_entry (T := T) hN hsize i hi
  have hc := fresh_chain_size hsize hent N 0 (by omega)
  have hN0 : ¬ N = 0 := by omega
  simp only [hN0, if_false] at hc
  have hw : ∀ fuel, N ≤ fuel →
      walk (Pool.Pool T N).freeIndices fuel (Pool.Pool T N).nextFree = List.range N := by
    intro fuel hfuel
    rw [List.range_eq_range']
    exact walk_of_chain hc (by simpa using hfuel)
  refine ⟨rfl, hlen, fun i hi => ?_, ?_, hw N (Nat.le_refl N), hw, rfl, rfl⟩
  · apply getElem?_of_getD (by omega)
    rw [hent i (by omega)]
    simp [hi]
  · apply getElem?_of_getD (by omega)
    rw [hent (N - 1) (by omega)]
    simp

/-- Instance of C12: capacity 3. -/
theorem fresh_pool_chains_slots_in_order_witness :
    (1 ≤ 3 ∧ 3 < 2 ^ 64) ∧
    (Pool.Pool Base1 3).nextFree = 0 ∧
    (Pool.Pool Base1 3).freeIndices = [1, 2, INVALID_INDEX] ∧
    freeList (Pool.Pool Base1 3) = List.range 3 :=
  ⟨⟨by decide, by decide⟩, rfl, by decide,
    (fresh_pool_chains_slots_in_order Base1 3 (by decide) (by decide)).2.2.2.2.1⟩

/-! ### Invariants of the free list -/

/-- C13 as amended: in every state reached from a fresh pool (`N ≥ 1`) by a run that respects
the caller contract, the slots reachable from `nextFree`, the occupied slots and the slots
taken by a `makeObject` whose constructor threw partition `[0, N)`; when no constructor has
thrown, the slots reachable from `nextFree` are exactly the slots of `[0, N)` that are not
occupied.  A slot is occupied when its address is an outstanding pointer, and then it holds
an object; a free slot holds none. -/
theorem free_list_is_complement_of_occupied {T A : Type} {N : Nat} (hN : 1 ≤ N) (L : Layout)
    (hL : L.WF N) (ctor : A → Option T) (ops : List (Op A)) (r : Run T N)
    (h : runOps L ctor (Run.fresh T N) ops = some r) :
    (∀ i, i ∈ freeList r.pool ↔ i < N ∧ slotAddr L i ∉ r.live ∧ i ∉ r.lost) ∧
    (r.lost = [] → ∀ i, i ∈ freeList r.pool ↔ i < N ∧ slotAddr L i ∉ r.live) ∧
    (∀ p ∈ r.live, getIndex L p < N ∧ p = slotAddr L (getIndex L p) ∧
      (r.pool.storage.getD (getIndex L p) none).isSome = true) ∧
    (∀ i ∈ freeList r.pool, r.pool.storage.getD i none = none) ∧
    (∀ i ∈ r.lost, i < N ∧ slotAddr L i ∉ r.live) := by
  obtain ⟨free, hinv⟩ := reach_inv hN hL h
  rw [hinv.freeList_eq]
  refine ⟨hinv.mem_free_iff hL, fun hl i => ?_, fun p hp => ?_, hinv.free_raw,
    fun i hi => ⟨(hinv.lost_slot i hi).1, fun hm => ?_⟩⟩
  · rw [hinv.mem_free_iff hL i, hl]
    simp
  · have := hinv.live_index hL hp
    exact ⟨this.2.1, this.2.2.1, this.2.2.2.2.2⟩
  · obtain ⟨j, _, e, _, hj, _⟩ := hinv.live_slot _ hm
    exact hj (slotAddr_inj hL e ▸ hi)

/-- Instance of C13 as amended: capacity 2, one object constructed; slot 1 is the free list. -/
theorem free_list_is_complement_of_occupied_witness :
    (1 ≤ 2 ∧ Layout.WF { base := 4096, stride := 4 } 2) ∧
    runOps { base := 4096, stride := 4 } NoDefaultConstructor.ctor
      (Run.fresh NoDefaultConstructor 2) [Op.make 10] =
      some { pool := { storage := [some { number := 10 }, none],
                       freeIndices := [1, INVALID_INDEX],
                       nextFree := 1,
                       trace := [Event.constructed 4096] },
             live := [4096], lost := [] } ∧
    (1 ∈ freeList ({ storage := [some { number := 10 }, none],
                     freeIndices := [1, INVALID_INDEX],
                     nextFree := 1,
                     trace := [Event.constructed 4096] } : Pool NoDefaultConstructor 2) ↔
      1 < 2 ∧ slotAddr { base := 4096, stride := 4 } 1 ∉ [4096]) :=
  ⟨⟨by decide, by decide⟩, by decide,
    (free_list_is_complement_of_occupied (by decide) { base := 4096, stride := 4 } (by decide)
      NoDefaultConstructor.ctor [Op.make 10]
      { pool := { storage := [some { number := 10 }, none],
                  freeIndices := [1, INVALID_INDEX],
                  nextFree := 1,
                  trace := [Event.constructed 4096] },
        live := [4096], lost := [] } (by decide)).2.1 rfl 1⟩

/-- C13 as stated fails: on a pool of one integer whose constructor rejects negative arguments,
the run `makeObject(-1)` respects the caller contract and ends with an empty free list and no
outstanding object, so slot 0 is not occupied and yet not reachable from `nextFree`. -/
theorem free_list_misses_slot_after_throw :
    runOps { base := 4096, stride := 8 } (fun n : Int => if n < 0 then none else some n)
      (Run.fresh Int 1) [Op.make (-1)] =
      some { pool := { storage := [none], freeIndices := [INVALID_INDEX],
                       nextFree := INVALID_INDEX, trace := [] },
             live := [], lost := [0] } ∧
    ¬ ∀ i, i ∈ freeList ({ storage := [none], freeIndices := [INVALID_INDEX],
                           nextFree := INVALID_INDEX, trace := [] } : Pool Int 1) ↔
        i < 1 ∧ slotAddr { base := 4096, stride := 8 } i ∉ ([] : List Nat) :=
  ⟨by decide, fun hall => absurd ((hall 0).2 (by decide)) (by decide)⟩

/-- C14: in every state reached from a fresh pool (`N ≥ 1`) by a run that respects the caller
contract, the chain `nextFree`, `freeIndices[nextFree]`, ... visits no slot twice, visits
slots of the pool only, and reaches `INVALID_INDEX` after at most `N` steps: the walk of the
free list is the same for every bound on its length from `N` on. -/
theorem free_list_is_acyclic_and_bounded {T A : Type} {N : Nat} (hN : 1 ≤ N) (L : Layout)
    (hL : L.WF N) (ctor : A → Option T) (ops : List (Op A)) (r : Run T N)
    (h : runOps L ctor (Run.fresh T N) ops = some r) :
    (freeList r.pool).Nodup ∧
    (freeList r.pool).length ≤ N ∧
    (∀ i ∈ freeList r.pool, i < N) ∧
    IsChain r.pool.freeIndices r.pool.nextFree (freeList r.pool) ∧
    (∀ fuel, N ≤ fuel → walk r.pool.freeIndices fuel r.pool.nextFree = freeList r.pool) := by
  obtain ⟨free, hinv⟩ := reach_inv hN hL h
  rw [hinv.freeList_eq]
  exact ⟨hinv.free_nodup, hinv.free_length_le, hinv.free_lt, hinv.chain, hinv.walk_eq⟩

/-- Instance of C14: capacity 2, two constructions, then the two objects destroyed; the free
list is slot 1 followed by slot 0. -/
theorem free_list_is_acyclic_and_bounded_witness :
    (1 ≤ 2 ∧ Layout.WF { base := 4096, stride := 4 } 2) ∧
    runOps { base := 4096, stride := 4 } NoDefaultConstructor.ctor
      (Run.fresh NoDefaultConstructor 2)
      [Op.make 10, Op.make 20, Op.destroy 4096, Op.destroy 4100] =
      some { pool := { storage := [none, none],
                       freeIndices := [INVALID_INDEX, 0],
                       nextFree := 1,
                       trace := [Event.destructed 4100, Event.destructed 4096,
                         Event.constructed 4100, Event.constructed 4096] },
             live := [], lost := [] } ∧
    freeList ({ storage := [none, none],
                freeIndices := [INVALID_INDEX, 0],
                nextFree := 1,
                trace := [Event.destructed 4100, Event.destructed 4096,
                  Event.constructed 4100, Event.constructed 4096] } :
      Pool NoDefaultConstructor 2) = [1, 0] ∧
    (freeList ({ storage := [none, none],
                 freeIndices := [INVALID_INDEX, 0],
                 nextFree := 1,
                 trace := [Event.destructed 4100, Event.destructed 4096,
                   Event.constructed 4100, Event.constructed 4096] } :
      Pool NoDefaultConstructor 2)).Nodup :=
  ⟨⟨by decide, by decide⟩, by decide, by decide,
    (free_list_is_acyclic_and_bounded (by decide) { base := 4096, stride := 4 } (by decide)
      NoDefaultConstructor.ctor [Op.make 10, Op.make 20, Op.destroy 4096, Op.destroy 4100]
      { pool := { storage := [none, none],
                  freeIndices := [INVALID_INDEX, 0],
                  nextFree := 1,
                  trace := [Event.destructed 4100, Event.destructed 4096,
                    Event.constructed 4100, Event.constructed 4096] },
        live := [], lost := [] } (by decide)).1⟩

/-- C15 as amended: in every state reached from a fresh pool (`N ≥ 1`) by a run that respects
the caller contract, `nextFree == INVALID_INDEX` holds if and only if the outstanding objects
and the slots taken by a `makeObject` whose constructor threw are `N` together, and this is
also when `makeObject` returns `nullptr`; when no constructor has thrown,
`nextFree == INVALID_INDEX` holds if and only if exactly `N` objects are outstanding. -/
theorem exhausted_iff_all_slots_taken {T A : Type} {N : Nat} (hN : 1 ≤ N) (L : Layout)
    (hL : L.WF N) (ctor : A → Option T) (ops : List (Op A)) (r : Run T N)
    (h : runOps L ctor (Run.fresh T N) ops = some r) :
    (r.pool.nextFree = INVALID_INDEX ↔ r.live.length + r.lost.length = N) ∧
    (∀ args : A, (makeObject L ctor r.pool args).1 = MakeResult.returned nullptr ↔
      r.live.length + r.lost.length = N) ∧
    (r.lost = [] → (r.pool.nextFree = INVALID_INDEX ↔ r.live.length = N)) ∧
    (r.lost = [] → ∀ args : A,
      ((makeObject L ctor r.pool args).1 = MakeResult.returned nullptr ↔
        r.live.length = N)) := by
  obtain ⟨free, hinv⟩ := reach_inv hN hL h
  have hcount := hinv.count
  have h1 : r.pool.nextFree = INVALID_INDEX ↔ r.live.length + r.lost.length = N := by
    constructor
    · intro hn
      rw [hinv.free_nil hn] at hcount
      simp only [List.length_nil] at hcount
      omega
    · intro hc
      by_contra hn
      obtain ⟨l, rfl⟩ := hinv.free_cons hn
      simp only [List.length_cons] at hcount
      omega
  have h2 : ∀ args : A, (makeObject L ctor r.pool args).1 = MakeResult.returned nullptr ↔
      r.pool.nextFree = INVALID_INDEX := by
    intro args
    constructor
    · intro hm
      by_contra hn
      cases hv : ctor args with
      | none =>
        rw [makeObject_threw L ctor r.pool args hn hv] at hm
        exact absurd hm (by simp)
      | some v =>
        rw [makeObject_some L ctor r.pool args v hn hv] at hm
        exact slotAddr_ne_null hL _ (MakeResult.returned.inj hm)
    · intro hn
      rw [makeObject_null L ctor r.pool args hn]
  refine ⟨h1, fun args => (h2 args).trans h1, fun hl => ?_, fun hl args => ?_⟩
  · rw [h1, hl]; simp
  · rw [h2 args, h1, hl]; simp

/-- Instance of C15 as amended: capacity 2 with both slots occupied. -/
theorem exhausted_iff_all_slots_taken_witness :
    (1 ≤ 2 ∧ Layout.WF { base := 4096, stride := 4 } 2) ∧
    runOps { base := 4096, stride := 4 } NoDefaultConstructor.ctor
      (Run.fresh NoDefaultConstructor 2) [Op.make 10, Op.make 20] =
      some { pool := { storage := [some { number := 10 }, some { number := 20 }],
                       freeIndices := [1, INVALID_INDEX],
                       nextFree := INVALID_INDEX,
                       trace := [Event.constructed 4100, Event.constructed 4096] },
             live := [4100, 4096], lost := [] } ∧
    (({ storage := [some { number := 10 }, some { number := 20 }],
        freeIndices := [1, INVALID_INDEX],
        nextFree := INVALID_INDEX,
        trace := [Event.constructed 4100, Event.constructed 4096] } :
        Pool NoDefaultConstructor 2).nextFree = INVALID_INDEX ↔
      [4100, 4096].length = 2) :=
  ⟨⟨by decide, by decide⟩, by decide,
    (exhausted_iff_all_slots_taken (by decide) { base := 4096, stride := 4 } (by decide)
      NoDefaultConstructor.ctor [Op.make 10, Op.make 20]
      { pool := { storage := [some { number := 10 }, some { number := 20 }],
                  freeIndices := [1, INVALID_INDEX],
                  nextFree := INVALID_INDEX,
                  trace := [Event.constructed 4100, Event.constructed 4096] },
        live := [4100, 4096], lost := [] } (by decide)).2.2.1 rfl⟩

/-- C15 as stated fails: on a pool of one integer whose constructor rejects negative
arguments, the run `makeObject(-1)` respects the caller contract and ends with
`nextFree == INVALID_INDEX`, so that `makeObject` returns `nullptr`, while no object is
outstanding. -/
theorem exhausted_with_no_object_after_throw :
    runOps { base := 4096, stride := 8 } (fun n : Int => if n < 0 then none else some n)
      (Run.fresh Int 1) [Op.make (-1)] =
      some { pool := { storage := [none], freeIndices := [INVALID_INDEX],
                       nextFree := INVALID_INDEX, trace := [] },
             live := [], lost := [0] } ∧
    (makeObject { base := 4096, stride := 8 } (fun n : Int => if n < 0 then none else some n)
      ({ storage := [none], freeIndices := [INVALID_INDEX],
         nextFree := INVALID_INDEX, trace := [] } : Pool Int 1) 5).1 =
      MakeResult.returned nullptr ∧
    ¬ (({ storage := [none], freeIndices := [INVALID_INDEX],
          nextFree := INVALID_INDEX, trace := [] } : Pool Int 1).nextFree = INVALID_INDEX ↔
        ([] : List Nat).length = 1) := by
  decide

/-! ### Release of a slot -/

theorem getElem?_set_self_of_lt {l : List Nat} {i v : Nat} (hi : i < l.length) :
    (l.set i v)[i]? = some v :=
  getElem?_of_getD (by simpa using hi) (getD_set_eq l i v 0 hi)

/-- The effect of `destroyObject` on a non-null pointer whose index is in `[0, N)`. -/
theorem destroyObject_in_range_effect {T : Type} {N : Nat} (L : Layout) (s : Pool T N)
    (hfi : s.freeIndices.length = N) (hst : s.storage.length = N) (p : Nat)
    (hp : p ≠ nullptr) (h : getIndex L p < N) :
    (destroyObject L s p).trace = Event.destructed p :: s.trace ∧
    (destroyObject L s p).storage[getIndex L p]? = some none ∧
    (∀ j, j ≠ getIndex L p → (destroyObject L s p).storage[j]? = s.storage[j]?) ∧
    (destroyObject L s p).freeIndices[getIndex L p]? = some s.nextFree ∧
    (destroyObject L s p).nextFree = getIndex L p ∧
    (∀ j, j ≠ getIndex L p → (destroyObject L s p).freeIndices[j]? = s.freeIndices[j]?) := by
  rw [destroyObject_slot L s p hp h]
  refine ⟨rfl, ?_, fun j hj => ?_, getElem?_set_self_of_lt (by rw [hfi]; exact h), rfl,
    fun j hj => ?_⟩
  · show (s.storage.set (getIndex L p) none)[getIndex L p]? = some none
    rw [List.getElem?_set]
    simp [hst, h]
  · show (s.storage.set (getIndex L p) none)[j]? = s.storage[j]?
    rw [List.getElem?_set]
    simp [Ne.symm hj]
  · show (s.freeIndices.set (getIndex L p) s.nextFree)[j]? = s.freeIndices[j]?
    rw [List.getElem?_set]
    simp [Ne.symm hj]

/-- C16 as amended: in every pool state, for the address of every slot `i` in `[0, N)`, which
is what every pointer returned by `makeObject` is, `destroyObject` invokes the destructor of
`T` exactly once, on the object in slot `i`, and then sets `freeIndices[i]` to the old value
of `nextFree` and `nextFree` to `i`, leaving every other entry of `freeIndices` and every
other storage slot unchanged.  For any other non-null pointer whose computed index is in
`[0, N)`, the single destructor invocation is made through the pointer passed and the free
list is updated in the same way. -/
theorem destroyObject_of_slot_address_pushes_slot {T : Type} {N : Nat} (L : Layout)
    (hL : L.WF N) (s : Pool T N) (hfi : s.freeIndices.length = N)
    (hst : s.storage.length = N) (i : Nat) (hi : i < N) :
    ((destroyObject L s (slotAddr L i)).trace = Event.destructed (slotAddr L i) :: s.trace ∧
      (destroyObject L s (slotAddr L i)).storage[i]? = some none ∧
      (∀ j, j ≠ i → (destroyObject L s (slotAddr L i)).storage[j]? = s.storage[j]?) ∧
      (destroyObject L s (slotAddr L i)).freeIndices[i]? = some s.nextFree ∧
      (destroyObject L s (slotAddr L i)).nextFree = i ∧
      (∀ j, j ≠ i →
        (destroyObject L s (slotAddr L i)).freeIndices[j]? = s.freeIndices[j]?)) ∧
    (∀ p, p ≠ nullptr → getIndex L p < N →
      (destroyObject L s p).trace = Event.destructed p :: s.trace ∧
      (destroyObject L s p).freeIndices[getIndex L p]? = some s.nextFree ∧
      (destroyObject L s p).nextFree = getIndex L p ∧
      (∀ j, j ≠ getIndex L p →
        (destroyObject L s p).freeIndices[j]? = s.freeIndices[j]?)) := by
  constructor
  · have h := destroyObject_in_range_effect L s hfi hst (slotAddr L i)
      (slotAddr_ne_null hL i) (by rw [getIndex_slotAddr hL hi]; exact hi)
    rw [getIndex_slotAddr hL hi] at h
    exact h
  · intro p hp h
    have h2 := destroyObject_in_range_effect L s hfi hst p hp h
    exact ⟨h2.1, h2.2.2.2.1, h2.2.2.2.2.1, h2.2.2.2.2.2⟩

/-- Instance of C16 as amended: a full pool of capacity 2; the second object, at the address
4100 of slot 1, is destroyed. -/
theorem destroyObject_of_slot_address_pushes_slot_witness :
    (Layout.WF { base := 4096, stride := 4 } 2 ∧
      slotAddr { base := 4096, stride := 4 } 1 = 4100 ∧ 1 < 2) ∧
    destroyObject { base := 4096, stride := 4 }
      ({ storage := [some { number := 10 }, some { number := 20 }],
         freeIndices := [1, INVALID_INDEX], nextFree := INVALID_INDEX,
         trace := [Event.constructed 4100, Event.constructed 4096] } :
        Pool NoDefaultConstructor 2) 4100 =
      { storage := [some { number := 10 }, none],
        freeIndices := [1, INVALID_INDEX], nextFree := 1,
        trace := [Event.destructed 4100, Event.constructed 4100, Event.constructed 4096] } ∧
    (destroyObject { base := 4096, stride := 4 }
      ({ storage := [some { number := 10 }, some { number := 20 }],
         freeIndices := [1, INVALID_INDEX], nextFree := INVALID_INDEX,
         trace := [Event.constructed 4100, Event.constructed 4096] } :
        Pool NoDefaultConstructor 2) (slotAddr { base := 4096, stride := 4 } 1)).trace =
      [Event.destructed 4100, Event.constructed 4100, Event.constructed 4096] :=
  ⟨⟨by decide, by decide, by decide⟩, by decide,
    (destroyObject_of_slot_address_pushes_slot { base := 4096, stride := 4 } (by decide)
      ({ storage := [some { number := 10 }, some { number := 20 }],
         freeIndices := [1, INVALID_INDEX], nextFree := INVALID_INDEX,
         trace := [Event.constructed 4100, Event.constructed 4096] } :
        Pool NoDefaultConstructor 2) rfl rfl 1 (by decide)).1.1⟩

/-- C16 as stated fails: in a full pool of two `NoDefaultConstructor` objects at address
4096, the pointer 4097 is not null and has the computed index 0, but it is not the address
4096 of slot 0: `destroyObject(4097)` invokes the destructor through 4097, not on the object
in slot 0, and pushes slot 0 on the free list all the same. -/
theorem destroyObject_of_interior_pointer_destructs_off_slot :
    (4097 ≠ nullptr ∧ getIndex { base := 4096, stride := 4 } 4097 = 0 ∧
      slotAddr { base := 4096, stride := 4 } 0 = 4096) ∧
    (destroyObject { base := 4096, stride := 4 }
      ({ storage := [some { number := 10 }, some { number := 20 }],
         freeIndices := [1, INVALID_INDEX], nextFree := INVALID_INDEX,
         trace := [Event.constructed 4100, Event.constructed 4096] } :
        Pool NoDefaultConstructor 2) 4097).trace =
      [Event.destructed 4097, Event.constructed 4100, Event.constructed 4096] ∧
    Event.destructed (slotAddr { base := 4096, stride := 4 } 0) ∉
      (destroyObject { base := 4096, stride := 4 }
        ({ storage := [some { number := 10 }, some { number := 20 }],
           freeIndices := [1, INVALID_INDEX], nextFree := INVALID_INDEX,
           trace := [Event.constructed 4100, Event.constructed 4096] } :
          Pool NoDefaultConstructor 2) 4097).trace ∧
    (destroyObject { base := 4096, stride := 4 }
      ({ storage := [some { number := 10 }, some { number := 20 }],
         freeIndices := [1, INVALID_INDEX], nextFree := INVALID_INDEX,
         trace := [Event.constructed 4100, Event.constructed 4096] } :
        Pool NoDefaultConstructor 2) 4097).nextFree = 0 := by
  decide

/-! ### Double destroy -/

theorem walk_self_loop {fi : List Nat} {i : Nat} (hi : fi.getD i 0 = i)
    (hne : i ≠ INVALID_INDEX) : ∀ fuel, walk fi fuel i = List.replicate fuel i
  | 0 => rfl
  | fuel + 1 => by
    simp only [walk, hne, if_false, hi, List.replicate_succ]
    rw [walk_self_loop hi hne fuel]

/-- While the head of the free list is linked to itself, every `makeObject` call hands out the
same slot and leaves the link in place. -/
theorem makeMany_self_loop {T A : Type} {N : Nat} (L : Layout) (ctor : A → Option T) {i : Nat}
    (hne : i ≠ INVALID_INDEX) :
    ∀ (args : List A) (s : Pool T N), s.nextFree = i → s.freeIndices.getD i 0 = i →
      (∀ x ∈ (makeMany L ctor s args).1,
        x = MakeResult.returned (slotAddr L i) ∨ x = MakeResult.threw) ∧
      ((∀ a ∈ args, (ctor a).isSome = true) → (makeMany L ctor s args).1 =
        List.replicate args.length (MakeResult.returned (slotAddr L i))) ∧
      (makeMany L ctor s args).2.nextFree = i ∧
      (makeMany L ctor s args).2.freeIndices = s.freeIndices
  | [], s, h1, _ => by
    simp [makeMany, h1]
  | a :: as, s, h1, h2 => by
    have hn : s.nextFree ≠ INVALID_INDEX := h1 ▸ hne
    cases hv : ctor a with
    | none =>
      have hm := makeObject_threw L ctor s a hn hv
      obtain ⟨ih1, ih2, ih3, ih4⟩ := makeMany_self_loop L ctor hne as
        ({ s with nextFree := s.freeIndices.getD s.nextFree 0 } : Pool T N)
        (by show s.freeIndices.getD s.nextFree 0 = i; rw [h1, h2]) h2
      simp only [makeMany, hm]
      refine ⟨fun x hx => ?_, fun hall => ?_, ih3, ih4⟩
      · rcases List.mem_cons.1 hx with e | hm2
        · exact Or.inr e
        · exact ih1 x hm2
      · have := hall a (List.mem_cons_self _ _)
        rw [hv] at this
        exact absurd this (by simp)
    | some v =>
      have hm := makeObject_some L ctor s a v hn hv
      obtain ⟨ih1, ih2, ih3, ih4⟩ := makeMany_self_loop L ctor hne as
        ({ storage := s.storage.set s.nextFree (some v)
           freeIndices := s.freeIndices
           nextFree := s.freeIndices.getD s.nextFree 0
           trace := Event.constructed (slotAddr L s.nextFree) :: s.trace } : Pool T N)
        (by show s.freeIndices.getD s.nextFree 0 = i; rw [h1, h2]) h2
      simp only [makeMany, hm]
      refine ⟨fun x hx => ?_, fun hall => ?_, ih3, ih4⟩
      · rcases List.mem_cons.1 hx with e | hm2
        · exact Or.inl (by rw [e, h1])
        · exact ih1 x hm2
      · rw [ih2 (fun b hb => hall b (List.mem_cons_of_mem _ hb)), h1]
        rfl

/-- C17: in every pool state, for every non-null pointer `p` with an index `i` in `[0, N)`,
two `destroyObject(p)` calls in a row go undetected and leave `nextFree = i` and
`freeIndices[i] = i`: the walk of the free list never ends, and every subsequent `makeObject`
call, with no `destroyObject` in between, hands out the address of the same slot `i` (the
same pointer again and again, whenever the constructor completes) and never returns
`nullptr`. -/
theorem double_destroy_links_slot_to_itself {T A : Type} {N : Nat} (L : Layout)
    (hL : L.WF N) (ctor : A → Option T) (s : Pool T N) (hfi : s.freeIndices.length = N)
    (p : Nat) (hp : p ≠ nullptr) (h : getIndex L p < N) (args : List A) :
    (destroyObject L (destroyObject L s p) p).nextFree = getIndex L p ∧
    (destroyObject L (destroyObject L s p) p).freeIndices[getIndex L p]? =
      some (getIndex L p) ∧
    (∀ fuel, walk (destroyObject L (destroyObject L s p) p).freeIndices fuel
      (destroyObject L (destroyObject L s p) p).nextFree =
        List.replicate fuel (getIndex L p)) ∧
    (∀ x ∈ (makeMany L ctor (destroyObject L (destroyObject L s p) p) args).1,
      x = MakeResult.returned (slotAddr L (getIndex L p)) ∨ x = MakeResult.threw) ∧
    (∀ x ∈ (makeMany L ctor (destroyObject L (destroyObject L s p) p) args).1,
      x ≠ MakeResult.returned nullptr) ∧
    ((∀ a ∈ args, (ctor a).isSome = true) →
      (makeMany L ctor (destroyObject L (destroyObject L s p) p) args).1 =
        List.replicate args.length (MakeResult.returned (slotAddr L (getIndex L p)))) ∧
    (makeMany L ctor (destroyObject L (destroyObject L s p) p) args).2.nextFree =
      getIndex L p := by
  have hN := hL.lt_size
  have hne : getIndex L p ≠ INVALID_INDEX := by unfold INVALID_INDEX; omega
  rw [destroyObject_slot L s p hp h, destroyObject_slot L _ p hp h]
  have hlen : getIndex L p < (s.freeIndices.set (getIndex L p) s.nextFree).length := by
    rw [List.length_set, hfi]; exact h
  have hself : ((s.freeIndices.set (getIndex L p) s.nextFree).set (getIndex L p)
      (getIndex L p)).getD (getIndex L p) 0 = getIndex L p := getD_set_eq _ _ _ _ hlen
  obtain ⟨m1, m2, m3, _⟩ := makeMany_self_loop L ctor hne args
    ({ storage := (s.storage.set (getIndex L p) none).set (getIndex L p) none
       freeIndices := (s.freeIndices.set (getIndex L p) s.nextFree).set (getIndex L p)
         (getIndex L p)
       nextFree := getIndex L p
       trace := Event.destructed p :: Event.destructed p :: s.trace } : Pool T N) rfl hself
  refine ⟨rfl, getElem?_set_self_of_lt hlen, walk_self_loop hself hne, m1, fun x hx e => ?_,
    m2, m3⟩
  rcases m1 x hx with e2 | e2
  · rw [e] at e2
    exact slotAddr_ne_null hL _ (MakeResult.returned.inj e2).symm
  · rw [e] at e2
    exact absurd e2 (by simp)

/-- Instance of C17: capacity 2 with both slots occupied; the first pointer is destroyed twice
and three constructions follow, all at address 4096. -/
theorem double_destroy_links_slot_to_itself_witness :
    (Layout.WF { base := 4096, stride := 4 } 2 ∧ 4096 ≠ nullptr ∧
      getIndex { base := 4096, stride := 4 } 4096 = 0) ∧
    (makeMany { base := 4096, stride := 4 } NoDefaultConstructor.ctor
      (destroyObject { base := 4096, stride := 4 }
        (destroyObject { base := 4096, stride := 4 }
          ({ storage := [some { number := 10 }, some { number := 20 }],
             freeIndices := [1, INVALID_INDEX], nextFree := INVALID_INDEX,
             trace := [Event.constructed 4100, Event.constructed 4096] } :
            Pool NoDefaultConstructor 2) 4096) 4096) [30, 40, 50]).1 =
      [MakeResult.returned 4096, MakeResult.returned 4096, MakeResult.returned 4096] :=
  ⟨⟨by decide, by decide, by decide⟩,
    (double_destroy_links_slot_to_itself { base := 4096, stride := 4 } (by decide)
      NoDefaultConstructor.ctor
      ({ storage := [some { number := 10 }, some { number := 20 }],
         freeIndices := [1, INVALID_INDEX], nextFree := INVALID_INDEX,
         trace := [Event.constructed 4100, Event.constructed 4096] } :
        Pool NoDefaultConstructor 2) rfl 4096 (by decide) (by decide) [30, 40, 50]).2.2.2.2.2.1
      (by decide)⟩

/-! ### Teardown of the pool -/

/-- C18: in every pool state the destructor of the pool invokes the destructor of `T` on no
slot: the record of the invocations of `T` is as before, and every slot that held an object
still holds it, so the outstanding objects are never destructed. -/
theorem pool_destructor_destructs_no_object {T : Type} {N : Nat} (L : Layout)
    (s : Pool T N) :
    (Pool.destructor s).trace = s.trace ∧
    (Pool.destructor s).storage = s.storage ∧
    (∀ p, deref L (Pool.destructor s) p = deref L s p) ∧
    (∀ p, (Event.destructed p ∈ (Pool.destructor s).trace ↔ Event.destructed p ∈ s.trace)) :=
  ⟨rfl, rfl, fun _ => rfl, fun _ => Iff.rfl⟩

/-- C19, evaluated on a pool of two `Base1` objects at address 4096 in which one object has
been constructed and not destroyed: after the destructor of the pool, the destructor of the
object at 4096 has not been invoked, and the object is still in its slot. -/
theorem pool_destructor_leaks_outstanding_object :
    runOps { base := 4096, stride := 16 } Base1.ctor (Run.fresh Base1 2) [Op.make ()] =
      some { pool := { storage := [some { number1 := 1 }, none],
                       freeIndices := [1, INVALID_INDEX],
                       nextFree := 1,
                       trace := [Event.constructed 4096] },
             live := [4096], lost := [] } ∧
    (Pool.destructor ({ storage := [some { number1 := 1 }, none],
                        freeIndices := [1, INVALID_INDEX],
                        nextFree := 1,
                        trace := [Event.constructed 4096] } : Pool Base1 2)).trace =
      [Event.constructed 4096] ∧
    Event.destructed 4096 ∉
      (Pool.destructor ({ storage := [some { number1 := 1 }, none],
                          freeIndices := [1, INVALID_INDEX],
                          nextFree := 1,
                          trace := [Event.constructed 4096] } : Pool Base1 2)).trace ∧
    deref { base := 4096, stride := 16 }
      (Pool.destructor ({ storage := [some { number1 := 1 }, none],
                          freeIndices := [1, INVALID_INDEX],
                          nextFree := 1,
                          trace := [Event.constructed 4096] } : Pool Base1 2)) 4096 =
      some { number1 := 1 } := by
  decide

/-! ### Bounds of the array accesses -/

/-- C20: in every state reached from a fresh pool (`N ≥ 1`) by a run that respects the caller
contract, both arrays have `N` entries, `nextFree` is `INVALID_INDEX` or below `N`, and every
slot reachable from `nextFree` is below `N` and has a `freeIndices` entry that is
`INVALID_INDEX` or below `N`; hence the index `currentIndex` that `makeObject` uses on
`freeIndices` and `storage`, the index `indx` that `destroyObject` writes, and the indices
`0, ..., N - 1` that the constructor writes are all inside the arrays. -/
theorem array_accesses_are_in_bounds {T A : Type} {N : Nat} (hN : 1 ≤ N) (L : Layout)
    (hL : L.WF N) (ctor : A → Option T) (ops : List (Op A)) (r : Run T N)
    (h : runOps L ctor (Run.fresh T N) ops = some r) :
    (r.pool.freeIndices.length = N ∧ r.pool.storage.length = N) ∧
    (r.pool.nextFree = INVALID_INDEX ∨ r.pool.nextFree < N) ∧
    (∀ i ∈ freeList r.pool, i < N ∧
      (r.pool.freeIndices.getD i 0 = INVALID_INDEX ∨ r.pool.freeIndices.getD i 0 < N)) ∧
    (r.pool.nextFree ≠ INVALID_INDEX →
      r.pool.nextFree < r.pool.freeIndices.length ∧
      r.pool.nextFree < r.pool.storage.length) ∧
    (∀ p, destroyObject L r.pool p ≠ r.pool →
      getIndex L p < r.pool.freeIndices.length ∧ getIndex L p < r.pool.storage.length) ∧
    ((∀ i ∈ List.range (sizeSub N 1), i < (List.replicate N 0).length) ∧
      sizeSub N 1 < (List.replicate N 0).length) := by
  obtain ⟨free, hinv⟩ := reach_inv hN hL h
  have hN2 := hL.lt_size
  have hhead : r.pool.nextFree ≠ INVALID_INDEX → r.pool.nextFree < N := by
    intro hn
    obtain ⟨l, hl⟩ := hinv.free_cons hn
    exact hinv.free_lt _ (hl ▸ List.mem_cons_self _ _)
  rw [hinv.freeList_eq, hinv.len_fi, hinv.len_st]
  refine ⟨⟨rfl, rfl⟩, ?_, fun i hi => ⟨hinv.free_lt i hi, ?_⟩, fun hn => ⟨hhead hn, hhead hn⟩,
    fun p hp => ?_, ?_⟩
  · by_cases hn : r.pool.nextFree = INVALID_INDEX
    · exact Or.inl hn
    · exact Or.inr (hhead hn)
  · rcases hinv.chain.next_mem i hi with e | hm
    · exact Or.inl e
    · exact Or.inr (hinv.free_lt _ hm)
  · by_cases hlt : getIndex L p < N
    · exact ⟨hlt, hlt⟩
    · exact absurd (destroyObject_foreign L r.pool p (by omega)) hp
  · rw [sizeSub_one hN (by omega), List.length_replicate]
    refine ⟨fun i hi => ?_, by omega⟩
    have := List.mem_range.1 hi
    omega

/-- Instance of C20: capacity 2, two constructions and the destruction of the first object. -/
theorem array_accesses_are_in_bounds_witness :
    (1 ≤ 2 ∧ Layout.WF { base := 4096, stride := 4 } 2) ∧
    runOps { base := 4096, stride := 4 } NoDefaultConstructor.ctor
      (Run.fresh NoDefaultConstructor 2) [Op.make 10, Op.make 20, Op.destroy 4096] =
      some { pool := { storage := [none, some { number := 20 }],
                       freeIndices := [INVALID_INDEX, INVALID_INDEX],
                       nextFree := 0,
                       trace := [Event.destructed 4096, Event.constructed 4100,
                         Event.constructed 4096] },
             live := [4100], lost := [] } ∧
    ((0 : Nat) = INVALID_INDEX ∨ (0 : Nat) < 2) :=
  ⟨⟨by decide, by decide⟩, by decide,
    (array_accesses_are_in_bounds (by decide) { base := 4096, stride := 4 } (by decide)
      NoDefaultConstructor.ctor [Op.make 10, Op.make 20, Op.destroy 4096]
      { pool := { storage := [none, some { number := 20 }],
                  freeIndices := [INVALID_INDEX, INVALID_INDEX],
                  nextFree := 0,
                  trace := [Event.destructed 4096, Event.constructed 4100,
                    Event.constructed 4096] },
        live := [4100], lost := [] } (by decide)).2.1⟩

end FixedPool
